import Mathlib

/-!
Shallow embedding of the recommendation core of the repository:
- `app/schemas/...` data model (enums and records, with the pydantic
  construction-time checks modelled explicitly where they can fail),
- `app/services/rule_based_recommender.py` (RuleBasedRecommender),
- `app/services/response_builder.py` (ResponseBuilder),
- `app/services/recommend_service.py` (RecommendService retry loop).
Machine integers are modelled as `Nat` (all the quantities involved are
non-negative by the pydantic field bounds `ge=0` / `ge=1`).
-/

namespace Spec2Proof

/-- Enum `ExerciseType` from `app/schemas/common.py`. -/
inductive ExerciseType where
  | REPS
  | DURATION
deriving Repr, DecidableEq

/-- Enum `BodyPart` from `app/schemas/v1/exercise.py`. -/
inductive BodyPart where
  | NECK
  | SHOULDER
  | WRIST
  | LOWER_BACK
deriving Repr, DecidableEq

/-- String value of each `BodyPart` enum member (`BodyPart.NECK.value = "neck"` etc.). -/
def BodyPart.value : BodyPart → String
  | .NECK => "neck"
  | .SHOULDER => "shoulder"
  | .WRIST => "wrist"
  | .LOWER_BACK => "lowerBack"

/-- Enum `DifficultyLevel` from `app/schemas/v1/exercise.py` (ordinal 1..3). -/
inductive DifficultyLevel where
  | EASY
  | NORMAL
  | HARD
deriving Repr, DecidableEq

/-- Record `Exercise` from `app/schemas/v1/exercise.py`; the `pose` field is
irrelevant to every service modelled here and is omitted. -/
structure Exercise where
  exerciseId : Int
  type : ExerciseType
  name : String
  content : String
  effect : String
  bodyPart : BodyPart
  difficulty : DifficultyLevel
  tags : String
deriving Repr, DecidableEq

/-- Record `RoutineStep` from `app/schemas/v1/response.py` (raw fields; the
pydantic model validator is the separate predicate `RoutineStep.pydValid`). -/
structure RoutineStep where
  exerciseId : Int
  type : ExerciseType
  stepOrder : Nat
  limitTime : Nat
  durationTime : Option Nat
  targetReps : Option Nat
deriving Repr, DecidableEq

/-- Pydantic validator `RoutineStep.check_exercise_type_fields` together with the
field bound `stepOrder ge=1`: REPS steps carry `targetReps` and no
`durationTime`, DURATION steps carry `durationTime` and no `targetReps`. -/
def RoutineStep.pydValid (s : RoutineStep) : Bool :=
  1 ≤ s.stepOrder &&
    (match s.type with
      | .REPS => s.targetReps.isSome && s.durationTime.isNone
      | .DURATION => s.durationTime.isSome && s.targetReps.isNone)

/-- Record `Routine` from `app/schemas/v1/response.py` (raw fields; the
non-empty-steps construction check is modelled by `mkRoutine?` below). -/
structure Routine where
  routineOrder : Nat
  reason : String
  steps : List RoutineStep
deriving Repr, DecidableEq

/-- Record `LLMRoutineOutput` from `app/schemas/v1/response.py`. -/
structure LLMRoutineOutput where
  routines : List Routine
deriving Repr, DecidableEq

/-- Record `SurveyAnswer` from `app/schemas/v1/request.py`
(`selectedOptionSortOrder` has pydantic bound `ge=1`). -/
structure SurveyAnswer where
  questionContent : String
  selectedOptionSortOrder : Nat
deriving Repr, DecidableEq

/-- Record `UserSurvey` from `app/schemas/v1/request.py` (`routineCount ge=0`). -/
structure UserSurvey where
  routineCount : Nat
  survey : List SurveyAnswer
deriving Repr, DecidableEq

/-- Enum `TaskStatus` from `app/schemas/v1/response.py`. -/
inductive TaskStatus where
  | IN_PROGRESS
  | COMPLETED
  | FAILED
deriving Repr, DecidableEq

/-- Record `RecommendationSummary` from `app/schemas/v1/response.py`. -/
structure RecommendationSummary where
  totalRoutines : Nat
  totalExercises : Nat
deriving Repr, DecidableEq

/-- Record `RecommendationResponseV1` from `app/schemas/v1/response.py`;
`completedAt` is modelled as an abstract timestamp passed in by the caller
(in the source it is `datetime.now(UTC)`). -/
structure RecommendationResponseV1 where
  taskId : String
  status : TaskStatus
  progress : Nat
  currentStep : String
  summary : Option RecommendationSummary
  errorMessage : Option String
  completedAt : Option Nat
  routines : Option (List Routine)
deriving Repr, DecidableEq

/-- Errors that can escape the normalization pass of `ResponseBuilder`:
`routineValidation` is the repository's `RoutineValidationError`
(`app/core/exceptions.py`), while `pydanticValidation` is a pydantic
`ValidationError` raised at model construction time (these two are unrelated
classes in the source, so `except RoutineValidationError` catches only the
former). -/
inductive BuildError where
  | routineValidation (msg : String)
  | pydanticValidation (msg : String)
deriving Repr, DecidableEq

/-- Construction of a `Routine` through pydantic: the model validator
`check_steps_not_empty` rejects an empty step list with a `ValidationError`. -/
def mkRoutine? (routineOrder : Nat) (reason : String) (steps : List RoutineStep) :
    Except BuildError Routine :=
  if steps.isEmpty then
    .error (.pydanticValidation ("루틴은 최소 1개 이상의 step을 포함해야 합니다."))
  else
    .ok ⟨routineOrder, reason, steps⟩

/-! ### Substring search

Python's `keyword in question` membership test on strings, modelled over the
character lists of the two strings. -/

/-- Test whether `needle` is a leading segment of `hay` (character lists). -/
def leadsL : List Char → List Char → Bool
  | [], _ => true
  | _ :: _, [] => false
  | a :: as, b :: bs => a = b && leadsL as bs

/-- Test whether `needle` occurs contiguously anywhere inside `hay`
(Python `needle in hay` for strings). -/
def occursInL (needle : List Char) : List Char → Bool
  | [] => leadsL needle []
  | hay@(_ :: rest) => leadsL needle hay || occursInL needle rest

/-- Python substring membership `needle in hay` on `String`. -/
def strContains (hay needle : String) : Bool :=
  occursInL needle.toList hay.toList

end Spec2Proof

namespace Spec2Proof.RuleBasedRecommender

/-- Module constant `KEYWORD_TO_BODY_PART` of
`app/services/rule_based_recommender.py`, as an association list in the
dict's insertion order. -/
def KEYWORD_TO_BODY_PART : List (String × BodyPart) :=
  [("목", .NECK), ("어깨", .SHOULDER), ("손목", .WRIST), ("허리", .LOWER_BACK)]

/-- Constants of `RoutineTimePolicy` in `app/core/config.py`. -/
def MIN_TIME : Nat := 150

/-- Maximum routine time of `RoutineTimePolicy` (210 seconds). -/
def MAX_TIME : Nat := 210

/-- Target routine time of `RoutineTimePolicy` (180 seconds). -/
def TARGET_TIME : Nat := 180

/-- Inner keyword loop of `_extract_pain_scores`: the first keyword of
`KEYWORD_TO_BODY_PART` (in dict order) occurring in the question text wins,
then the loop breaks. -/
def matchBodyPart (question : String) : Option BodyPart :=
  (KEYWORD_TO_BODY_PART.find? (fun kv => strContains question kv.1)).map (·.2)

/-- Python dict update `scores[body_part] = max(scores.get(body_part, 0), score)`
on an insertion-ordered association list: an existing key keeps its position
and takes the max, a new key is appended. -/
def updateScore (scores : List (BodyPart × Nat)) (part : BodyPart) (score : Nat) :
    List (BodyPart × Nat) :=
  if scores.any (fun p => p.1 = part) then
    scores.map (fun p => if p.1 = part then (p.1, max p.2 score) else p)
  else
    scores ++ [(part, score)]

/-- Method `_extract_pain_scores`: fold over the survey answers, recording per
body part the max ordinal seen among answers whose question mentions its
keyword. -/
def extract_pain_scores (survey : UserSurvey) : List (BodyPart × Nat) :=
  survey.survey.foldl
    (fun scores ans =>
      match matchBodyPart ans.questionContent with
      | some part => updateScore scores part ans.selectedOptionSortOrder
      | none => scores)
    []

/-- Insertion step of a stable descending sort on the score component:
`x` passes over exactly the entries with a strictly larger score. -/
def insertDesc (x : BodyPart × Nat) : List (BodyPart × Nat) → List (BodyPart × Nat)
  | [] => [x]
  | y :: ys => if y.2 > x.2 then y :: insertDesc x ys else x :: y :: ys

/-- Python `sorted(pain_scores.items(), key=lambda x: x[1], reverse=True)`:
a stable sort by descending score (ties keep their insertion order), modelled
as a stable insertion sort, which computes the same list. -/
def sortDesc : List (BodyPart × Nat) → List (BodyPart × Nat)
  | [] => []
  | x :: xs => insertDesc x (sortDesc xs)

/-- Method `_group_by_body_part`, read as the lookup
`self._exercises_by_part.get(body_part, [])`: the exercises of one body part
in catalog order. -/
def group_by_body_part (exercises : List Exercise) (part : BodyPart) : List Exercise :=
  exercises.filter (fun e => e.bodyPart = part)

/-- Method `_create_step`: fixed per-mode defaults (DURATION: 60s limit, 30s
duration; REPS: 60s limit, 10 reps). -/
def create_step (exercise : Exercise) (step_order : Nat) : RoutineStep :=
  match exercise.type with
  | .DURATION =>
      { exerciseId := exercise.exerciseId, type := .DURATION, stepOrder := step_order,
        limitTime := 60, durationTime := some 30, targetReps := none }
  | .REPS =>
      { exerciseId := exercise.exerciseId, type := .REPS, stepOrder := step_order,
        limitTime := 60, durationTime := none, targetReps := some 10 }

/-- Mutable loop state of `_create_routine` (steps, used ids, next step order,
running total time). -/
structure BuildState where
  steps : List RoutineStep
  usedIds : List Int
  stepOrder : Nat
  totalTime : Nat
deriving Repr, DecidableEq

/-- One exercise-list pass of `_create_routine` (used both for the per-part
inner loop with `target = TARGET_TIME` and for the minimum-time loop with
`target = MIN_TIME`): skip already-used exercises, append a step per exercise,
and stop as soon as the running total reaches `target`. -/
def addFromList (target : Nat) (st : BuildState) : List Exercise → BuildState
  | [] => st
  | e :: rest =>
    if e.exerciseId ∈ st.usedIds then
      addFromList target st rest
    else
      let step := create_step e st.stepOrder
      let st' : BuildState :=
        ⟨st.steps ++ [step], st.usedIds ++ [e.exerciseId],
          st.stepOrder + 1, st.totalTime + step.limitTime⟩
      if st'.totalTime ≥ target then st' else addFromList target st' rest

/-- Outer body-part loop of `_create_routine`: before each part, stop when the
running total has reached `TARGET_TIME`. -/
def addFromParts (exercises : List Exercise) (st : BuildState) :
    List (BodyPart × Nat) → BuildState
  | [] => st
  | (part, _) :: rest =>
    if st.totalTime ≥ TARGET_TIME then st
    else addFromParts exercises (addFromList TARGET_TIME st (group_by_body_part exercises part)) rest

/-- Method `_create_routine`: prioritized phase toward `TARGET_TIME`, then a
whole-catalog phase up to `MIN_TIME` when still short, then the rationale
text. The pydantic `Routine` construction at the end is modelled raw here;
its non-empty-steps check is what `Spec2Proof.mkRoutine?` captures and is
settled separately (with a non-empty catalog the step list is never empty). -/
def create_routine (exercises : List Exercise) (routine_order : Nat)
    (sorted_parts : List (BodyPart × Nat)) : Routine :=
  let st0 : BuildState := ⟨[], [], 1, 0⟩
  let st1 := addFromParts exercises st0 sorted_parts
  let st2 := if st1.totalTime < MIN_TIME then addFromList MIN_TIME st1 exercises else st1
  let reason :=
    match sorted_parts with
    | (top, _) :: _ => top.value ++ " 부위 집중 케어를 위한 루틴입니다."
    | [] => "전신 스트레칭을 위한 루틴입니다."
  ⟨routine_order, reason, st2.steps⟩

/-- Loop of `get_filler_steps`: skip excluded exercises, stop once the
accumulated time reaches `target_time`, else emit a step per exercise. -/
def fillGo (exclude_ids : List Int) (target_time : Nat) :
    List Exercise → Nat → Nat → List RoutineStep
  | [], _, _ => []
  | e :: rest, current_time, step_order =>
    if e.exerciseId ∈ exclude_ids then
      fillGo exclude_ids target_time rest current_time step_order
    else if current_time ≥ target_time then
      []
    else
      let step := create_step e step_order
      step :: fillGo exclude_ids target_time rest (current_time + step.limitTime) (step_order + 1)

/-- Method `get_filler_steps`: scan the full catalog in order, emitting steps
until the cumulative time meets `target_time` or the catalog is exhausted. -/
def get_filler_steps (exercises : List Exercise) (target_time : Nat)
    (exclude_ids : List Int) : List RoutineStep :=
  fillGo exclude_ids target_time exercises 0 1

/-- Priority-list rotation `sorted_parts[i:] + sorted_parts[:i]` used in
`recommend_routines`. -/
def rotateParts (sorted_parts : List (BodyPart × Nat)) (i : Nat) :
    List (BodyPart × Nat) :=
  sorted_parts.drop i ++ sorted_parts.take i

/-- Sorted pain-score priority list of a survey (steps 1 and 2 of
`recommend_routines`). -/
def sortedParts (survey : UserSurvey) : List (BodyPart × Nat) :=
  sortDesc (extract_pain_scores survey)

/-- Method `recommend_routines`: extract pain scores, sort them descending,
and build `max(1, routineCount)` routines, rotating the priority list by the
routine index. -/
def recommend_routines (exercises : List Exercise) (survey : UserSurvey) :
    LLMRoutineOutput :=
  let sorted_parts := sortedParts survey
  let routine_count := max 1 survey.routineCount
  ⟨(List.range routine_count).map
    (fun i => create_routine exercises (i + 1) (rotateParts sorted_parts i))⟩

end Spec2Proof.RuleBasedRecommender

namespace Spec2Proof.ResponseBuilder

open Spec2Proof.RuleBasedRecommender (get_filler_steps recommend_routines)

/-- Class constants of `ResponseBuilder` (`RoutineTimePolicy`). -/
def MIN_ROUTINE_TIME : Nat := 150

/-- Maximum routine time constant of `ResponseBuilder` (210 seconds). -/
def MAX_ROUTINE_TIME : Nat := 210

/-- Python `sum(step.limitTime for step in steps)`. -/
def sumLimit : List RoutineStep → Nat
  | [] => 0
  | s :: rest => s.limitTime + sumLimit rest

/-- Renumbering loop `for idx, step in enumerate(steps)` of `_reorder_steps`
(and of the tail of `_trim_steps_to_fit`), with the running index made
explicit. -/
def reorderFrom (idx : Nat) : List RoutineStep → List RoutineStep
  | [] => []
  | s :: rest => { s with stepOrder := idx + 1 } :: reorderFrom (idx + 1) rest

/-- Method `_reorder_steps`: rebuild every step with `stepOrder = idx + 1`. -/
def reorder_steps (steps : List RoutineStep) : List RoutineStep :=
  reorderFrom 0 steps

/-- Method `_filter_valid_exercises`: keep the steps whose `exerciseId` is in
the configured valid-id set, and raise `RoutineValidationError` when none
survive. -/
def filter_valid_exercises (valid_exercise_ids : List Int)
    (steps : List RoutineStep) : Except BuildError (List RoutineStep) :=
  let valid_steps := steps.filter (fun s => s.exerciseId ∈ valid_exercise_ids)
  if valid_steps.isEmpty then
    .error (.routineValidation ("모든 스텝이 유효하지 않은 exerciseId로 제거되었습니다."))
  else
    .ok valid_steps

/-- Accumulating loop of `_trim_steps_to_fit`: keep steps while the running
total stays within `MAX_ROUTINE_TIME`, and stop at the first step that would
exceed it. -/
def trimGo : List RoutineStep → Nat → List RoutineStep
  | [], _ => []
  | s :: rest, current_time =>
    if current_time + s.limitTime > MAX_ROUTINE_TIME then []
    else s :: trimGo rest (current_time + s.limitTime)

/-- Method `_trim_steps_to_fit`: trim from the end (by accumulating from the
front up to the budget) and renumber the survivors from 1. -/
def trim_steps_to_fit (steps : List RoutineStep) : List RoutineStep :=
  reorderFrom 0 (trimGo steps 0)

/-- Method `_fill_time_gap`: ask the fallback recommender for filler covering
`MIN_ROUTINE_TIME - current_time`, excluding ids already used; when no filler
is available keep the under-time steps as they are, otherwise append and
renumber. -/
def fill_time_gap (exercises : List Exercise) (steps : List RoutineStep)
    (current_time : Nat) : List RoutineStep :=
  let needed_time := MIN_ROUTINE_TIME - current_time
  let used_ids := steps.map (fun s => s.exerciseId)
  let filler_steps := get_filler_steps exercises needed_time used_ids
  if filler_steps.isEmpty then steps
  else reorder_steps (steps ++ filler_steps)

/-- Method `_validate_total_time`: accept totals within `[150, 210]`, trim
above 210, fill below 150. -/
def validate_total_time (exercises : List Exercise) (steps : List RoutineStep) :
    List RoutineStep :=
  let total_time := sumLimit steps
  if MIN_ROUTINE_TIME ≤ total_time ∧ total_time ≤ MAX_ROUTINE_TIME then steps
  else if total_time > MAX_ROUTINE_TIME then trim_steps_to_fit steps
  else fill_time_gap exercises steps total_time

/-- Method `_validate_single_routine`: empty-step check, id filtering (skipped
when the configured id set is falsy, i.e. empty), renumbering, total-time
enforcement, then the final pydantic `Routine` construction (which re-checks
non-emptiness of the adjusted steps). -/
def validate_single_routine (valid_exercise_ids : List Int)
    (exercises : List Exercise) (routine : Routine) (expected_order : Nat) :
    Except BuildError Routine :=
  if routine.steps.isEmpty then
    .error (.routineValidation ("루틴에 스텝이 없습니다."))
  else
    match
      (if valid_exercise_ids.isEmpty then .ok routine.steps
       else filter_valid_exercises valid_exercise_ids routine.steps :
        Except BuildError (List RoutineStep)) with
    | .error e => .error e
    | .ok steps =>
      mkRoutine? expected_order routine.reason
        (validate_total_time exercises (reorder_steps steps))

/-- Loop of `_validate_and_fix` over `enumerate(routines)`, carrying the
0-based index. -/
def validateAndFixGo (valid_exercise_ids : List Int) (exercises : List Exercise) :
    Nat → List Routine → Except BuildError (List Routine)
  | _, [] => .ok []
  | idx, r :: rest =>
    match validate_single_routine valid_exercise_ids exercises r (idx + 1) with
    | .error e => .error e
    | .ok fixed =>
      match validateAndFixGo valid_exercise_ids exercises (idx + 1) rest with
      | .error e => .error e
      | .ok fixedRest => .ok (fixed :: fixedRest)

/-- Method `_validate_and_fix`: reject an empty routine list, then validate
each routine at its 1-based position. -/
def validate_and_fix (valid_exercise_ids : List Int) (exercises : List Exercise)
    (routines : List Routine) : Except BuildError (List Routine) :=
  if routines.isEmpty then .error (.routineValidation ("추천된 루틴이 없습니다."))
  else validateAndFixGo valid_exercise_ids exercises 0 routines

/-- Method `_create_response`: COMPLETED response with progress 100 and the
count summary. -/
def create_response (validated_routines : List Routine) (task_id : String)
    (now : Nat) : RecommendationResponseV1 :=
  { taskId := task_id
    status := .COMPLETED
    progress := 100
    currentStep := "운동 플랜 추천 완료!"
    summary := some ⟨validated_routines.length,
      (validated_routines.map (fun r => r.steps.length)).sum⟩
    errorMessage := none
    completedAt := some now
    routines := some validated_routines }

/-- Method `build`: validate-and-fix the given output; on a
`RoutineValidationError` with a survey available, re-invoke the rule-based
recommender and validate its output; without a survey (or on any other
error class, such as a pydantic `ValidationError`) the error propagates. -/
def build (valid_exercise_ids : List Int) (exercises : List Exercise)
    (output : LLMRoutineOutput) (task_id : String) (survey : Option UserSurvey)
    (now : Nat) : Except BuildError RecommendationResponseV1 :=
  match validate_and_fix valid_exercise_ids exercises output.routines with
  | .ok validated_routines => .ok (create_response validated_routines task_id now)
  | .error e =>
    match e with
    | .routineValidation _ =>
      match survey with
      | some s =>
        match validate_and_fix valid_exercise_ids exercises
            (recommend_routines exercises s).routines with
        | .ok validated_routines => .ok (create_response validated_routines task_id now)
        | .error e2 => .error e2
      | none => .error e
    | .pydanticValidation _ => .error e

/-- Method `build_failed`: FAILED response, progress 0, error message set. -/
def build_failed (task_id : String) (error_message : String) (now : Nat) :
    RecommendationResponseV1 :=
  { taskId := task_id
    status := .FAILED
    progress := 0
    currentStep := "추천 실패"
    summary := none
    errorMessage := some error_message
    completedAt := some now
    routines := none }

end Spec2Proof.ResponseBuilder

namespace Spec2Proof.RecommendService

open Spec2Proof.RuleBasedRecommender (recommend_routines)

/-- Error taxonomy of `app/services/llm_clients/exceptions.py` (the concrete
subclasses of `LLMError`). -/
inductive LLMErrorKind where
  | timeout
  | network
  | invalidResponse
  | authentication
deriving Repr, DecidableEq

/-- Module constant `RETRYABLE_ERRORS` of `app/services/recommend_service.py`:
timeout, network and invalid-response errors are retried; authentication is
not. -/
def LLMErrorKind.retryable : LLMErrorKind → Bool
  | .timeout => true
  | .network => true
  | .invalidResponse => true
  | .authentication => false

/-- One iteration body of the retry loop: `self._llm.generate(...)` followed by
`self._parse_response(raw)`. `generate` is the mocked client (a result per
attempt index); `parse` abstracts JSON decoding plus schema validation, whose
failures `_parse_response` both turn into `LLMInvalidResponseError`. -/
def attemptOnce (generate : Nat → Except LLMErrorKind String)
    (parse : String → Option LLMRoutineOutput) (attempt : Nat) :
    Except LLMErrorKind LLMRoutineOutput :=
  match generate attempt with
  | .error k => .error k
  | .ok raw =>
    match parse raw with
    | some out => .ok out
    | none => .error .invalidResponse

/-- Retry loop `for attempt in range(self._max_retries + 1)`, returning the
successful output (if any), the `last_error` variable, and the number of
calls made to `LLMClient.generate`. A retryable error continues the loop; any
other `LLMError` (authentication) breaks out of it. -/
def attemptLoop (generate : Nat → Except LLMErrorKind String)
    (parse : String → Option LLMRoutineOutput) :
    Nat → Nat → Option LLMErrorKind →
      Option LLMRoutineOutput × Option LLMErrorKind × Nat
  | _, 0, last_error => (none, last_error, 0)
  | attempt, remaining + 1, last_error =>
    match attemptOnce generate parse attempt with
    | .ok out => (some out, last_error, 1)
    | .error k =>
      if k.retryable then
        let (r, l, c) := attemptLoop generate parse (attempt + 1) remaining (some k)
        (r, l, c + 1)
      else (none, some k, 1)

/-- Method `RecommendService.recommend_routines`: run the retry loop; on
exhaustion (or a non-retryable break) use the rule-based fallback when
enabled, else raise `LLMInvalidResponseError` carrying the last underlying
cause. The second component counts the calls made to `LLMClient.generate`. -/
def recommend_routines_svc (generate : Nat → Except LLMErrorKind String)
    (parse : String → Option LLMRoutineOutput) (max_retries : Nat)
    (fallback_enabled : Bool) (exercises : List Exercise) (survey : UserSurvey) :
    Except (LLMErrorKind × Option LLMErrorKind) LLMRoutineOutput × Nat :=
  match attemptLoop generate parse 0 (max_retries + 1) none with
  | (some out, _, calls) => (.ok out, calls)
  | (none, last_error, calls) =>
    if fallback_enabled then (.ok (recommend_routines exercises survey), calls)
    else (.error (.invalidResponse, last_error), calls)

end Spec2Proof.RecommendService

namespace Spec2Proof.ResponseBuilder

/-! ### Basic lemmas about the step-list transformations -/

theorem sumLimit_append (a b : List RoutineStep) :
    sumLimit (a ++ b) = sumLimit a + sumLimit b := by
  induction a with
  | nil => simp [sumLimit]
  | cons s rest ih => simp [sumLimit, ih, Nat.add_assoc]

theorem reorderFrom_sumLimit (n : Nat) (l : List RoutineStep) :
    sumLimit (reorderFrom n l) = sumLimit l := by
  induction l generalizing n with
  | nil => rfl
  | cons s rest ih => simp [reorderFrom, sumLimit, ih]

theorem reorderFrom_length (n : Nat) (l : List RoutineStep) :
    (reorderFrom n l).length = l.length := by
  induction l generalizing n with
  | nil => rfl
  | cons s rest ih => simp [reorderFrom, ih]

theorem reorderFrom_eq_nil_iff (n : Nat) (l : List RoutineStep) :
    reorderFrom n l = [] ↔ l = [] := by
  cases l <;> simp [reorderFrom]

theorem reorderFrom_idem (n : Nat) (l : List RoutineStep) :
    reorderFrom n (reorderFrom n l) = reorderFrom n l := by
  induction l generalizing n with
  | nil => rfl
  | cons s rest ih => simp [reorderFrom, ih]

theorem reorder_steps_idem (l : List RoutineStep) :
    reorder_steps (reorder_steps l) = reorder_steps l :=
  reorderFrom_idem 0 l

theorem reorderFrom_map_exerciseId (n : Nat) (l : List RoutineStep) :
    (reorderFrom n l).map (fun s => s.exerciseId) = l.map (fun s => s.exerciseId) := by
  induction l generalizing n with
  | nil => rfl
  | cons s rest ih => simp [reorderFrom, ih]

theorem reorderFrom_get? (n : Nat) (l : List RoutineStep) (j : Nat) :
    (reorderFrom n l).get? j = (l.get? j).map (fun s => { s with stepOrder := n + j + 1 }) := by
  induction l generalizing n j with
  | nil => simp [reorderFrom]
  | cons s rest ih =>
    cases j with
    | zero => simp [reorderFrom]
    | succ j =>
      have harith : n + 1 + j + 1 = n + (j + 1) + 1 := by omega
      simp only [reorderFrom, List.get?_cons_succ, ih (n + 1) j, harith]

theorem reorder_steps_get? (l : List RoutineStep) (j : Nat) :
    (reorder_steps l).get? j = (l.get? j).map (fun s => { s with stepOrder := j + 1 }) := by
  simpa using reorderFrom_get? 0 l j

/-- Steps of a list that is a fixed point of `reorder_steps` are numbered
`1..N` by position. -/
theorem stepOrder_of_reorder_fix {l : List RoutineStep} (hfix : reorder_steps l = l)
    {j : Nat} {s : RoutineStep} (hget : l.get? j = some s) : s.stepOrder = j + 1 := by
  have h := reorder_steps_get? l j
  rw [hfix, hget] at h
  simp at h
  have := congrArg RoutineStep.stepOrder h
  simpa using this

theorem trimGo_sum_le (l : List RoutineStep) (cur : Nat) (h : cur ≤ MAX_ROUTINE_TIME) :
    cur + sumLimit (trimGo l cur) ≤ MAX_ROUTINE_TIME := by
  induction l generalizing cur with
  | nil => simpa [trimGo, sumLimit] using h
  | cons s rest ih =>
    rw [trimGo]
    by_cases hgt : cur + s.limitTime > MAX_ROUTINE_TIME
    · rw [if_pos hgt]
      simpa [sumLimit] using h
    · have hle : cur + s.limitTime ≤ MAX_ROUTINE_TIME := by omega
      have hrec := ih (cur + s.limitTime) hle
      rw [if_neg hgt]
      simp only [sumLimit]
      omega

theorem trim_steps_to_fit_sum_le (l : List RoutineStep) :
    sumLimit (trim_steps_to_fit l) ≤ MAX_ROUTINE_TIME := by
  have := trimGo_sum_le l 0 (by simp [MAX_ROUTINE_TIME])
  simpa [trim_steps_to_fit, reorderFrom_sumLimit] using this

end Spec2Proof.ResponseBuilder

namespace Spec2Proof.RuleBasedRecommender

theorem create_step_limitTime (e : Exercise) (k : Nat) :
    (create_step e k).limitTime = 60 := by
  cases h : e.type <;> simp [create_step, h]

theorem create_step_exerciseId (e : Exercise) (k : Nat) :
    (create_step e k).exerciseId = e.exerciseId := by
  cases h : e.type <;> simp [create_step, h]

theorem create_step_pydValid (e : Exercise) (k : Nat) (hk : 1 ≤ k) :
    (create_step e k).pydValid = true := by
  cases h : e.type <;> simp [create_step, h, RoutineStep.pydValid, hk]

/-- Sum bound for the filler loop: starting strictly below `target + 60`, the
accumulated time stays strictly below `target + 60` (every emitted step costs
60 seconds and the loop stops as soon as the target is reached). -/
theorem fillGo_sum_lt (excl : List Int) (target : Nat) (exs : List Exercise)
    (cur ord : Nat) (h : cur < target + 60) :
    cur + ResponseBuilder.sumLimit (fillGo excl target exs cur ord) < target + 60 := by
  induction exs generalizing cur ord with
  | nil => simpa [fillGo, ResponseBuilder.sumLimit] using h
  | cons e rest ih =>
    rw [fillGo]
    by_cases hex : e.exerciseId ∈ excl
    · rw [if_pos hex]
      exact ih cur ord h
    · rw [if_neg hex]
      by_cases hge : cur ≥ target
      · rw [if_pos hge]
        simpa [ResponseBuilder.sumLimit] using h
      · rw [if_neg hge]
        have hlt : cur + (create_step e ord).limitTime < target + 60 := by
          rw [create_step_limitTime]; omega
        have hrec := ih (cur + (create_step e ord).limitTime) (ord + 1) hlt
        simp only [ResponseBuilder.sumLimit]
        rw [create_step_limitTime] at hrec ⊢
        omega

theorem get_filler_steps_sum_lt (exs : List Exercise) (target : Nat) (excl : List Int) :
    ResponseBuilder.sumLimit (get_filler_steps exs target excl) < target + 60 := by
  have := fillGo_sum_lt excl target exs 0 1 (by omega)
  simpa [get_filler_steps] using this

end Spec2Proof.RuleBasedRecommender

namespace Spec2Proof.ResponseBuilder

theorem fill_time_gap_sum_le (c : List Exercise) (l : List RoutineStep)
    (h : sumLimit l < MIN_ROUTINE_TIME) :
    sumLimit (fill_time_gap c l (sumLimit l)) ≤ MAX_ROUTINE_TIME := by
  unfold fill_time_gap
  by_cases hemp :
      (RuleBasedRecommender.get_filler_steps c (MIN_ROUTINE_TIME - sumLimit l)
        (l.map fun s => s.exerciseId)) = []
  · simp only [hemp, List.isEmpty_nil, if_true]
    simp [MIN_ROUTINE_TIME, MAX_ROUTINE_TIME] at h ⊢
    omega
  · have hfill := RuleBasedRecommender.get_filler_steps_sum_lt c
      (MIN_ROUTINE_TIME - sumLimit l) (l.map fun s => s.exerciseId)
    simp only [List.isEmpty_iff, hemp, if_false]
    rw [reorder_steps, reorderFrom_sumLimit, sumLimit_append]
    simp [MIN_ROUTINE_TIME, MAX_ROUTINE_TIME] at h hfill ⊢
    omega

/-- The time-enforcement pass never returns a routine whose total exceeds the
210-second cap. -/
theorem validate_total_time_sum_le (c : List Exercise) (l : List RoutineStep) :
    sumLimit (validate_total_time c l) ≤ MAX_ROUTINE_TIME := by
  unfold validate_total_time
  by_cases hin : MIN_ROUTINE_TIME ≤ sumLimit l ∧ sumLimit l ≤ MAX_ROUTINE_TIME
  · simp only [hin, if_true]
    exact hin.2
  · by_cases hgt : sumLimit l > MAX_ROUTINE_TIME
    · simpa [hin, hgt] using trim_steps_to_fit_sum_le l
    · have hlt : sumLimit l < MIN_ROUTINE_TIME := by
        simp [MIN_ROUTINE_TIME, MAX_ROUTINE_TIME] at hin hgt ⊢; omega
      simpa [hin, hgt] using fill_time_gap_sum_le c l hlt

theorem mkRoutine?_ok {k : Nat} {reason : String} {steps : List RoutineStep} {fr : Routine} :
    mkRoutine? k reason steps = .ok fr ↔ steps ≠ [] ∧ fr = ⟨k, reason, steps⟩ := by
  unfold mkRoutine?
  by_cases hemp : steps = []
  · simp [hemp]
  · simp [hemp]
    constructor
    · intro h; exact h.symm
    · intro h; exact h.symm

/-- Case analysis of the time-enforcement pass: either the result reaches the
150-second minimum, or the input was over the cap and got trimmed, or the
input was under the minimum and the available filler could not cover the
deficit. -/
theorem validate_total_time_cases (c : List Exercise) (l : List RoutineStep) :
    MIN_ROUTINE_TIME ≤ sumLimit (validate_total_time c l) ∨
    (MAX_ROUTINE_TIME < sumLimit l ∧ validate_total_time c l = trim_steps_to_fit l) ∨
    (sumLimit l < MIN_ROUTINE_TIME ∧
      sumLimit (RuleBasedRecommender.get_filler_steps c (MIN_ROUTINE_TIME - sumLimit l)
        (l.map (fun s => s.exerciseId))) < MIN_ROUTINE_TIME - sumLimit l) := by
  unfold validate_total_time
  by_cases hin : MIN_ROUTINE_TIME ≤ sumLimit l ∧ sumLimit l ≤ MAX_ROUTINE_TIME
  · left
    simp only [hin, if_true]
    exact hin.1
  · by_cases hgt : sumLimit l > MAX_ROUTINE_TIME
    · right; left
      simp [hin, hgt]
    · have hlt : sumLimit l < MIN_ROUTINE_TIME := by
        simp [MIN_ROUTINE_TIME, MAX_ROUTINE_TIME] at hin hgt ⊢; omega
      by_cases hF : MIN_ROUTINE_TIME - sumLimit l ≤
          sumLimit (RuleBasedRecommender.get_filler_steps c (MIN_ROUTINE_TIME - sumLimit l)
            (l.map (fun s => s.exerciseId)))
      · left
        have hFne : RuleBasedRecommender.get_filler_steps c (MIN_ROUTINE_TIME - sumLimit l)
            (l.map (fun s => s.exerciseId)) ≠ [] := by
          intro hnil
          rw [hnil] at hF
          simp [sumLimit] at hF
          simp [MIN_ROUTINE_TIME] at hlt hF
          omega
        simp only [hin, if_false, hgt, fill_time_gap, List.isEmpty_iff, hFne, if_false]
        rw [reorder_steps, reorderFrom_sumLimit, sumLimit_append]
        simp [MIN_ROUTINE_TIME] at hlt hF ⊢
        omega
      · right; right
        exact ⟨hlt, by omega⟩

/-- The time-enforcement pass maps `reorder_steps` fixed points to
`reorder_steps` fixed points (each of its branches either returns its input
or renumbers explicitly). -/
theorem validate_total_time_reorder_fix (c : List Exercise) (l : List RoutineStep)
    (hfix : reorder_steps l = l) :
    reorder_steps (validate_total_time c l) = validate_total_time c l := by
  unfold validate_total_time
  by_cases hin : MIN_ROUTINE_TIME ≤ sumLimit l ∧ sumLimit l ≤ MAX_ROUTINE_TIME
  · simpa [hin] using hfix
  · by_cases hgt : sumLimit l > MAX_ROUTINE_TIME
    · simpa [hin, hgt, trim_steps_to_fit, reorder_steps] using reorderFrom_idem 0 (trimGo l 0)
    · simp only [hin, if_false, hgt, fill_time_gap]
      by_cases hF : RuleBasedRecommender.get_filler_steps c (MIN_ROUTINE_TIME - sumLimit l)
          (l.map (fun s => s.exerciseId)) = []
      · simpa [hF] using hfix
      · simpa [hF, List.isEmpty_iff] using reorder_steps_idem _

/-- The time-enforcement pass keeps a non-empty step list non-empty as long as
the input is within the 210-second cap (so that the trim branch, the only one
able to drop all steps, is not taken). -/
theorem validate_total_time_ne_nil (c : List Exercise) (l : List RoutineStep)
    (hne : l ≠ []) (hle : sumLimit l ≤ MAX_ROUTINE_TIME) :
    validate_total_time c l ≠ [] := by
  unfold validate_total_time
  by_cases hin : MIN_ROUTINE_TIME ≤ sumLimit l ∧ sumLimit l ≤ MAX_ROUTINE_TIME
  · simpa [hin] using hne
  · have hgt : ¬ sumLimit l > MAX_ROUTINE_TIME := by omega
    simp only [hin, if_false, hgt, fill_time_gap]
    by_cases hF : RuleBasedRecommender.get_filler_steps c (MIN_ROUTINE_TIME - sumLimit l)
        (l.map (fun s => s.exerciseId)) = []
    · simpa [hF] using hne
    · simp only [hF, List.isEmpty_iff, if_false]
      rw [reorder_steps, Ne, reorderFrom_eq_nil_iff]
      simp [hne]

/-- Decomposition of a successful single-routine validation: the result is the
input routine's reason at the expected order, with steps equal to the
time-enforced renumbering of the (possibly filtered) input steps. -/
theorem validate_single_routine_ok {v : List Int} {c : List Exercise} {r : Routine}
    {k : Nat} {fr : Routine} (h : validate_single_routine v c r k = .ok fr) :
    ∃ steps₁,
      ((v = [] ∧ steps₁ = r.steps) ∨ (v ≠ [] ∧ filter_valid_exercises v r.steps = .ok steps₁)) ∧
      fr = ⟨k, r.reason, validate_total_time c (reorder_steps steps₁)⟩ ∧
      validate_total_time c (reorder_steps steps₁) ≠ [] ∧ r.steps ≠ [] := by
  unfold validate_single_routine at h
  by_cases hemp : r.steps.isEmpty
  · simp [hemp] at h
  · rw [if_neg hemp] at h
    have hne : r.steps ≠ [] := by simpa [List.isEmpty_iff] using hemp
    by_cases hv : v.isEmpty
    · rw [if_pos hv] at h
      simp only at h
      rw [mkRoutine?_ok] at h
      exact ⟨r.steps, Or.inl ⟨by simpa [List.isEmpty_iff] using hv, rfl⟩, h.2, h.1, hne⟩
    · rw [if_neg hv] at h
      cases hfil : filter_valid_exercises v r.steps with
      | error e => rw [hfil] at h; simp at h
      | ok steps₁ =>
        rw [hfil] at h
        simp only at h
        rw [mkRoutine?_ok] at h
        exact ⟨steps₁, Or.inr ⟨by simpa [List.isEmpty_iff] using hv, rfl⟩, h.2, h.1, hne⟩

theorem validateAndFixGo_length {v : List Int} {c : List Exercise} {n : Nat}
    {rs out : List Routine} (h : validateAndFixGo v c n rs = .ok out) :
    out.length = rs.length := by
  induction rs generalizing n out with
  | nil =>
    simp [validateAndFixGo] at h
    simp [← h]
  | cons r rest ih =>
    unfold validateAndFixGo at h
    cases hvsr : validate_single_routine v c r (n + 1) with
    | error e => rw [hvsr] at h; simp at h
    | ok fixed =>
      rw [hvsr] at h
      cases hrest : validateAndFixGo v c (n + 1) rest with
      | error e => rw [hrest] at h; simp at h
      | ok fixedRest =>
        rw [hrest] at h
        simp at h
        rw [← h]
        simp [ih hrest]

/-- Each element of a successful `validateAndFixGo` is the successful
single-routine validation of the input element at the same position. -/
theorem validateAndFixGo_get? {v : List Int} {c : List Exercise} {n : Nat}
    {rs out : List Routine} (h : validateAndFixGo v c n rs = .ok out) :
    ∀ i fr, out.get? i = some fr →
      ∃ r, rs.get? i = some r ∧ validate_single_routine v c r (n + i + 1) = .ok fr := by
  induction rs generalizing n out with
  | nil =>
    simp [validateAndFixGo] at h
    intro i fr hget
    rw [h] at hget
    simp at hget
  | cons r rest ih =>
    unfold validateAndFixGo at h
    cases hvsr : validate_single_routine v c r (n + 1) with
    | error e => rw [hvsr] at h; simp at h
    | ok fixed =>
      rw [hvsr] at h
      cases hrest : validateAndFixGo v c (n + 1) rest with
      | error e => rw [hrest] at h; simp at h
      | ok fixedRest =>
        rw [hrest] at h
        simp at h
        intro i fr hget
        rw [← h] at hget
        cases i with
        | zero =>
          rw [List.get?_cons_zero] at hget
          injection hget with hfr
          exact ⟨r, rfl, by rw [hvsr, hfr]⟩
        | succ i =>
          rw [List.get?_cons_succ] at hget
          obtain ⟨r', hr', hok⟩ := ih hrest i fr hget
          refine ⟨r', by rw [List.get?_cons_succ]; exact hr', ?_⟩
          have harith : n + 1 + i + 1 = n + (i + 1) + 1 := by omega
          rw [← harith]
          exact hok

/-- Re-validating a single already-validated routine returns it unchanged,
provided its steps survive the id filter and its total time is either at the
150-second minimum or cannot be improved by filler. -/
theorem validate_single_routine_idem {v : List Int} {c : List Exercise} {r : Routine}
    {k : Nat} {fr : Routine} (h : validate_single_routine v c r k = .ok fr)
    (hids : v = [] ∨ ∀ s ∈ fr.steps, s.exerciseId ∈ v)
    (htime : MIN_ROUTINE_TIME ≤ sumLimit fr.steps ∨
      RuleBasedRecommender.get_filler_steps c (MIN_ROUTINE_TIME - sumLimit fr.steps)
        (fr.steps.map (fun s => s.exerciseId)) = []) :
    validate_single_routine v c fr k = .ok fr := by
  obtain ⟨steps₁, _hsrc, hfr, hSne, _hrne⟩ := validate_single_routine_ok h
  set S := validate_total_time c (reorder_steps steps₁) with hS
  have hfix : reorder_steps S = S :=
    validate_total_time_reorder_fix c (reorder_steps steps₁) (reorder_steps_idem steps₁)
  have hle : sumLimit S ≤ MAX_ROUTINE_TIME := validate_total_time_sum_le c (reorder_steps steps₁)
  have hfrsteps : fr.steps = S := by rw [hfr]
  have hvttS : validate_total_time c S = S := by
    unfold validate_total_time
    by_cases hge : MIN_ROUTINE_TIME ≤ sumLimit S
    · simp [hge, hle]
    · have hnotin : ¬ (MIN_ROUTINE_TIME ≤ sumLimit S ∧ sumLimit S ≤ MAX_ROUTINE_TIME) := by
        intro hcon; exact hge hcon.1
      have hngt : ¬ sumLimit S > MAX_ROUTINE_TIME := by omega
      have hFemp : RuleBasedRecommender.get_filler_steps c (MIN_ROUTINE_TIME - sumLimit S)
          (S.map (fun s => s.exerciseId)) = [] := by
        rcases htime with hmin | hemp
        · rw [hfrsteps] at hmin; exact absurd hmin hge
        · rw [hfrsteps] at hemp; exact hemp
      simp [hnotin, hngt, fill_time_gap, hFemp]
  unfold validate_single_routine
  have hfrne : ¬ fr.steps.isEmpty := by
    rw [hfrsteps]
    simpa [List.isEmpty_iff] using hSne
  rw [if_neg hfrne]
  by_cases hv : v.isEmpty
  · rw [if_pos hv]
    simp only
    rw [hfrsteps, hfix, hvttS, mkRoutine?_ok]
    refine ⟨hSne, ?_⟩
    rw [hfr]
  · rw [if_neg hv]
    have hvne : v ≠ [] := by simpa [List.isEmpty_iff] using hv
    have hall : ∀ s ∈ fr.steps, s.exerciseId ∈ v := by
      rcases hids with hnil | hall
      · exact absurd hnil hvne
      · exact hall
    have hfil : filter_valid_exercises v fr.steps = .ok fr.steps := by
      unfold filter_valid_exercises
      have hkeep : fr.steps.filter (fun s => decide (s.exerciseId ∈ v)) = fr.steps := by
        rw [List.filter_eq_self]
        intro s hs
        simpa using hall s hs
      simp only [hkeep]
      rw [if_neg]
      rw [hfrsteps]
      simpa [List.isEmpty_iff] using hSne
    rw [hfil]
    simp only
    rw [hfrsteps, hfix, hvttS, mkRoutine?_ok]
    refine ⟨hSne, ?_⟩
    rw [hfr]

/-- List-level idempotence of the validation loop, under the per-routine
hypotheses of `validate_single_routine_idem`. -/
theorem validateAndFixGo_idem {v : List Int} {c : List Exercise} {n : Nat}
    {rs out : List Routine} (h : validateAndFixGo v c n rs = .ok out)
    (hids : v = [] ∨ ∀ fr ∈ out, ∀ s ∈ fr.steps, s.exerciseId ∈ v)
    (htime : ∀ fr ∈ out, MIN_ROUTINE_TIME ≤ sumLimit fr.steps ∨
      RuleBasedRecommender.get_filler_steps c (MIN_ROUTINE_TIME - sumLimit fr.steps)
        (fr.steps.map (fun s => s.exerciseId)) = []) :
    validateAndFixGo v c n out = .ok out := by
  induction rs generalizing n out with
  | nil =>
    simp [validateAndFixGo] at h
    rw [h]
    simp [validateAndFixGo]
  | cons r rest ih =>
    unfold validateAndFixGo at h
    cases hvsr : validate_single_routine v c r (n + 1) with
    | error e => rw [hvsr] at h; simp at h
    | ok fixed =>
      rw [hvsr] at h
      cases hrest : validateAndFixGo v c (n + 1) rest with
      | error e => rw [hrest] at h; simp at h
      | ok fixedRest =>
        rw [hrest] at h
        simp at h
        rw [← h]
        have hids1 : v = [] ∨ ∀ s ∈ fixed.steps, s.exerciseId ∈ v := by
          rcases hids with hnil | hall
          · exact Or.inl hnil
          · exact Or.inr (hall fixed (by rw [← h]; simp))
        have htime1 := htime fixed (by rw [← h]; simp)
        have hidsRest : v = [] ∨ ∀ fr ∈ fixedRest, ∀ s ∈ fr.steps, s.exerciseId ∈ v := by
          rcases hids with hnil | hall
          · exact Or.inl hnil
          · exact Or.inr (fun fr hfr => hall fr (by rw [← h]; simp [hfr]))
        have htimeRest : ∀ fr ∈ fixedRest, MIN_ROUTINE_TIME ≤ sumLimit fr.steps ∨
            RuleBasedRecommender.get_filler_steps c (MIN_ROUTINE_TIME - sumLimit fr.steps)
              (fr.steps.map (fun s => s.exerciseId)) = [] :=
          fun fr hfr => htime fr (by rw [← h]; simp [hfr])
        unfold validateAndFixGo
        rw [validate_single_routine_idem hvsr hids1 htime1,
          ih hrest hidsRest htimeRest]

theorem validate_and_fix_ok_ne_nil {v : List Int} {c : List Exercise}
    {rs out : List Routine} (h : validate_and_fix v c rs = .ok out) : out ≠ [] := by
  unfold validate_and_fix at h
  by_cases hemp : rs.isEmpty
  · simp [hemp] at h
  · rw [if_neg hemp] at h
    have hlen := validateAndFixGo_length h
    intro hnil
    rw [hnil] at hlen
    rw [List.isEmpty_iff] at hemp
    exact hemp (List.length_eq_zero.mp hlen.symm)

/-- Every routine of a successful `validate_and_fix` has non-empty steps that
are a `reorder_steps` fixed point (numbered `1..N`) and a total time within
the 210-second cap. -/
theorem validate_and_fix_mem_props {v : List Int} {c : List Exercise}
    {rs out : List Routine} (h : validate_and_fix v c rs = .ok out)
    {fr : Routine} (hmem : fr ∈ out) :
    fr.steps ≠ [] ∧ reorder_steps fr.steps = fr.steps ∧
      sumLimit fr.steps ≤ MAX_ROUTINE_TIME := by
  unfold validate_and_fix at h
  by_cases hemp : rs.isEmpty
  · simp [hemp] at h
  · rw [if_neg hemp] at h
    obtain ⟨i, hget⟩ := List.mem_iff_get?.mp hmem
    obtain ⟨r, _hr, hok⟩ := validateAndFixGo_get? h i fr hget
    obtain ⟨steps₁, _hsrc, hfr, hSne, _⟩ := validate_single_routine_ok hok
    have hsteps : fr.steps = validate_total_time c (reorder_steps steps₁) := by rw [hfr]
    refine ⟨by rw [hsteps]; exact hSne, ?_, ?_⟩
    · rw [hsteps]
      exact validate_total_time_reorder_fix c (reorder_steps steps₁) (reorder_steps_idem steps₁)
    · rw [hsteps]
      exact validate_total_time_sum_le c (reorder_steps steps₁)

/-- Routine order of each element of a successful `validate_and_fix` is its
1-based position. -/
theorem validate_and_fix_routineOrder {v : List Int} {c : List Exercise}
    {rs out : List Routine} (h : validate_and_fix v c rs = .ok out)
    {i : Nat} {fr : Routine} (hget : out.get? i = some fr) :
    fr.routineOrder = i + 1 := by
  unfold validate_and_fix at h
  by_cases hemp : rs.isEmpty
  · simp [hemp] at h
  · rw [if_neg hemp] at h
    obtain ⟨r, _hr, hok⟩ := validateAndFixGo_get? h i fr hget
    obtain ⟨steps₁, _hsrc, hfr, _, _⟩ := validate_single_routine_ok hok
    rw [hfr]
    simp

/-- Idempotence of `_validate_and_fix` under the two provisos: every output
step id passes the configured filter, and every output routine is at the
150-second minimum or has no filler left for its deficit. -/
theorem validate_and_fix_idem {v : List Int} {c : List Exercise}
    {rs out : List Routine} (h : validate_and_fix v c rs = .ok out)
    (hids : v = [] ∨ ∀ fr ∈ out, ∀ s ∈ fr.steps, s.exerciseId ∈ v)
    (htime : ∀ fr ∈ out, MIN_ROUTINE_TIME ≤ sumLimit fr.steps ∨
      RuleBasedRecommender.get_filler_steps c (MIN_ROUTINE_TIME - sumLimit fr.steps)
        (fr.steps.map (fun s => s.exerciseId)) = []) :
    validate_and_fix v c out = .ok out := by
  have hne := validate_and_fix_ok_ne_nil h
  unfold validate_and_fix at h ⊢
  by_cases hemp : rs.isEmpty
  · simp [hemp] at h
  · rw [if_neg hemp] at h
    rw [if_neg (by simpa [List.isEmpty_iff] using hne)]
    exact validateAndFixGo_idem h hids htime

/-- Decomposition of a successful `build`: the response is always
`_create_response` applied to some successful `_validate_and_fix` result
(either of the given output or of the fallback recommendation). -/
theorem build_ok_decomp {v : List Int} {c : List Exercise} {output : LLMRoutineOutput}
    {tid : String} {sv : Option UserSurvey} {now : Nat} {resp : RecommendationResponseV1}
    (h : build v c output tid sv now = .ok resp) :
    ∃ rsIn vr, validate_and_fix v c rsIn = .ok vr ∧ resp = create_response vr tid now := by
  unfold build at h
  cases h1 : validate_and_fix v c output.routines with
  | ok vr =>
    rw [h1] at h
    simp at h
    exact ⟨output.routines, vr, h1, h.symm⟩
  | error e =>
    rw [h1] at h
    cases e with
    | pydanticValidation msg => simp at h
    | routineValidation msg =>
      simp only at h
      cases sv with
      | none => simp at h
      | some s =>
        simp only at h
        cases h2 : validate_and_fix v c
            (RuleBasedRecommender.recommend_routines c s).routines with
        | error e2 => rw [h2] at h; simp at h
        | ok vr =>
          rw [h2] at h
          simp at h
          exact ⟨(RuleBasedRecommender.recommend_routines c s).routines, vr, h2, h.symm⟩

end Spec2Proof.ResponseBuilder

namespace Spec2Proof.RuleBasedRecommender

open Spec2Proof.ResponseBuilder (sumLimit)

/-- Loop invariant of `_create_routine`: the used-id set mirrors the emitted
steps, the running total is the (60-second-per-step) sum of the steps, the
next step order stays positive, and every emitted step is pydantic-valid and
references a catalog exercise. -/
def StateInv (catalog : List Exercise) (st : BuildState) : Prop :=
  st.usedIds = st.steps.map (fun s => s.exerciseId) ∧
  sumLimit st.steps = st.totalTime ∧
  st.totalTime = 60 * st.steps.length ∧
  1 ≤ st.stepOrder ∧
  ∀ s ∈ st.steps, s.pydValid = true ∧ s.exerciseId ∈ catalog.map (fun e => e.exerciseId)

theorem addFromList_steps_grow (target : Nat) (st : BuildState) (exs : List Exercise) :
    ∃ extra, (addFromList target st exs).steps = st.steps ++ extra := by
  induction exs generalizing st with
  | nil => exact ⟨[], by simp [addFromList]⟩
  | cons e rest ih =>
    rw [addFromList]
    by_cases hmem : e.exerciseId ∈ st.usedIds
    · rw [if_pos hmem]; exact ih st
    · rw [if_neg hmem]
      by_cases hge : st.totalTime + (create_step e st.stepOrder).limitTime ≥ target
      · rw [if_pos hge]
        exact ⟨[create_step e st.stepOrder], rfl⟩
      · rw [if_neg hge]
        obtain ⟨extra, hx⟩ := ih ⟨st.steps ++ [create_step e st.stepOrder],
          st.usedIds ++ [e.exerciseId], st.stepOrder + 1,
          st.totalTime + (create_step e st.stepOrder).limitTime⟩
        exact ⟨[create_step e st.stepOrder] ++ extra, by simpa using hx⟩

theorem addFromList_inv {catalog : List Exercise} (target : Nat) {st : BuildState}
    {exs : List Exercise} (hinv : StateInv catalog st)
    (hexs : ∀ e ∈ exs, e.exerciseId ∈ catalog.map (fun e => e.exerciseId)) :
    StateInv catalog (addFromList target st exs) := by
  induction exs generalizing st with
  | nil => simpa [addFromList]
  | cons e rest ih =>
    rw [addFromList]
    by_cases hmem : e.exerciseId ∈ st.usedIds
    · rw [if_pos hmem]
      exact ih hinv (fun e' he' => hexs e' (List.mem_cons_of_mem _ he'))
    · rw [if_neg hmem]
      obtain ⟨hused, hsum, htot, hord, hsteps⟩ := hinv
      have hinv' : StateInv catalog ⟨st.steps ++ [create_step e st.stepOrder],
          st.usedIds ++ [e.exerciseId], st.stepOrder + 1,
          st.totalTime + (create_step e st.stepOrder).limitTime⟩ := by
        refine ⟨?_, ?_, ?_, ?_, ?_⟩
        · simp [hused, create_step_exerciseId]
        · show sumLimit (st.steps ++ [create_step e st.stepOrder]) =
            st.totalTime + (create_step e st.stepOrder).limitTime
          rw [Spec2Proof.ResponseBuilder.sumLimit_append, hsum]
          simp [Spec2Proof.ResponseBuilder.sumLimit]
        · simp [create_step_limitTime, htot]
          omega
        · simp
        · intro s hs
          rcases List.mem_append.mp hs with hsl | hsr
          · exact hsteps s hsl
          · rw [List.mem_singleton] at hsr
            subst hsr
            refine ⟨create_step_pydValid e st.stepOrder hord, ?_⟩
            rw [create_step_exerciseId]
            exact hexs e (List.mem_cons_self e rest)
      by_cases hge : st.totalTime + (create_step e st.stepOrder).limitTime ≥ target
      · rw [if_pos hge]; exact hinv'
      · rw [if_neg hge]
        exact ih hinv' (fun e' he' => hexs e' (List.mem_cons_of_mem _ he'))

theorem addFromList_total_lt (target : Nat) {st : BuildState} (exs : List Exercise)
    (h : st.totalTime < target) :
    (addFromList target st exs).totalTime < target + 60 := by
  induction exs generalizing st with
  | nil => rw [addFromList]; omega
  | cons e rest ih =>
    rw [addFromList]
    by_cases hmem : e.exerciseId ∈ st.usedIds
    · rw [if_pos hmem]; exact ih h
    · rw [if_neg hmem]
      have hstep : (create_step e st.stepOrder).limitTime = 60 := create_step_limitTime e _
      by_cases hge : st.totalTime + (create_step e st.stepOrder).limitTime ≥ target
      · rw [if_pos hge]
        simp only
        omega
      · rw [if_neg hge]
        exact ih (by simp only; omega)

theorem addFromList_ne_nil (target : Nat) {st : BuildState} {exs : List Exercise}
    (hused : st.usedIds = []) (hexs : exs ≠ []) :
    (addFromList target st exs).steps ≠ [] := by
  cases exs with
  | nil => exact absurd rfl hexs
  | cons e rest =>
    rw [addFromList]
    have hmem : ¬ e.exerciseId ∈ st.usedIds := by rw [hused]; simp
    rw [if_neg hmem]
    by_cases hge : st.totalTime + (create_step e st.stepOrder).limitTime ≥ target
    · rw [if_pos hge]
      simp
    · rw [if_neg hge]
      obtain ⟨extra, hx⟩ := addFromList_steps_grow target ⟨st.steps ++ [create_step e st.stepOrder],
        st.usedIds ++ [e.exerciseId], st.stepOrder + 1,
        st.totalTime + (create_step e st.stepOrder).limitTime⟩ rest
      rw [hx]
      simp

theorem addFromParts_steps_grow (exercises : List Exercise) (st : BuildState)
    (parts : List (BodyPart × Nat)) :
    ∃ extra, (addFromParts exercises st parts).steps = st.steps ++ extra := by
  induction parts generalizing st with
  | nil => exact ⟨[], by simp [addFromParts]⟩
  | cons p rest ih =>
    rw [addFromParts]
    by_cases hge : st.totalTime ≥ TARGET_TIME
    · rw [if_pos hge]; exact ⟨[], by simp⟩
    · rw [if_neg hge]
      obtain ⟨x1, hx1⟩ := addFromList_steps_grow TARGET_TIME st (group_by_body_part exercises p.1)
      obtain ⟨x2, hx2⟩ := ih (addFromList TARGET_TIME st (group_by_body_part exercises p.1))
      exact ⟨x1 ++ x2, by rw [hx2, hx1, List.append_assoc]⟩

theorem addFromParts_inv {catalog : List Exercise} {st : BuildState}
    {parts : List (BodyPart × Nat)} (hinv : StateInv catalog st) :
    StateInv catalog (addFromParts catalog st parts) := by
  induction parts generalizing st with
  | nil => simpa [addFromParts]
  | cons p rest ih =>
    rw [addFromParts]
    by_cases hge : st.totalTime ≥ TARGET_TIME
    · rw [if_pos hge]; exact hinv
    · rw [if_neg hge]
      refine ih (addFromList_inv TARGET_TIME hinv ?_)
      intro e he
      exact List.mem_map_of_mem _ (List.mem_of_mem_filter he)

theorem addFromParts_total_le {catalog : List Exercise} {st : BuildState}
    {parts : List (BodyPart × Nat)} (hinv : StateInv catalog st)
    (hle : st.totalTime ≤ TARGET_TIME) :
    (addFromParts catalog st parts).totalTime ≤ TARGET_TIME := by
  induction parts generalizing st with
  | nil => simpa [addFromParts]
  | cons p rest ih =>
    rw [addFromParts]
    by_cases hge : st.totalTime ≥ TARGET_TIME
    · rw [if_pos hge]; exact hle
    · rw [if_neg hge]
      have hlt : st.totalTime < TARGET_TIME := by omega
      have hinv' : StateInv catalog (addFromList TARGET_TIME st (group_by_body_part catalog p.1)) :=
        addFromList_inv TARGET_TIME hinv
          (fun e he => List.mem_map_of_mem _ (List.mem_of_mem_filter he))
      have hbound := addFromList_total_lt TARGET_TIME (group_by_body_part catalog p.1) hlt
      have hmul := hinv'.2.2.1
      refine ih hinv' ?_
      simp [TARGET_TIME] at hbound hmul ⊢
      omega

/-- Core facts about `_create_routine`: with a non-empty catalog the produced
routine carries the requested order, a non-empty pydantic-valid step list of
catalog exercises, and a total time within `TARGET_TIME`. -/
theorem create_routine_props (exercises : List Exercise) (k : Nat)
    (parts : List (BodyPart × Nat)) (hcat : exercises ≠ []) :
    (create_routine exercises k parts).routineOrder = k ∧
    (create_routine exercises k parts).steps ≠ [] ∧
    sumLimit (create_routine exercises k parts).steps ≤ TARGET_TIME ∧
    ∀ s ∈ (create_routine exercises k parts).steps,
      s.pydValid = true ∧ s.exerciseId ∈ exercises.map (fun e => e.exerciseId) := by
  have hinv0 : StateInv exercises ⟨[], [], 1, 0⟩ := by
    refine ⟨rfl, rfl, rfl, le_refl 1, ?_⟩
    intro s hs
    simp at hs
  have hinv1 : StateInv exercises (addFromParts exercises ⟨[], [], 1, 0⟩ parts) :=
    addFromParts_inv hinv0
  have htot1 : (addFromParts exercises ⟨[], [], 1, 0⟩ parts).totalTime ≤ TARGET_TIME :=
    addFromParts_total_le hinv0 (by simp [TARGET_TIME])
  unfold create_routine
  simp only
  set st1 := addFromParts exercises ⟨[], [], 1, 0⟩ parts with hst1
  by_cases hmin : st1.totalTime < MIN_TIME
  · rw [if_pos hmin]
    set st2 := addFromList MIN_TIME st1 exercises with hst2
    have hinv2 : StateInv exercises st2 :=
      addFromList_inv MIN_TIME hinv1 (fun e he => List.mem_map_of_mem _ he)
    have hbound := addFromList_total_lt MIN_TIME exercises hmin
    have hne : st2.steps ≠ [] := by
      by_cases hempty : st1.steps = []
      · have hused : st1.usedIds = [] := by
          rw [hinv1.1, hempty]
          rfl
        exact addFromList_ne_nil MIN_TIME hused hcat
      · obtain ⟨extra, hx⟩ := addFromList_steps_grow MIN_TIME st1 exercises
        rw [← hst2] at hx
        rw [hx]
        simp [hempty]
    refine ⟨by trivial, hne, ?_, hinv2.2.2.2.2⟩
    have hsum := hinv2.2.1
    have hmul := hinv2.2.2.1
    rw [← hst2] at hbound
    simp [MIN_TIME, TARGET_TIME] at hbound hmul ⊢
    omega
  · rw [if_neg hmin]
    have hge : MIN_TIME ≤ st1.totalTime := by omega
    have hne : st1.steps ≠ [] := by
      intro hnil
      have hmul := hinv1.2.2.1
      rw [hnil] at hmul
      simp at hmul
      rw [hmul] at hge
      simp [MIN_TIME] at hge
    refine ⟨by trivial, hne, ?_, hinv1.2.2.2.2⟩
    rw [hinv1.2.1]
    exact htot1

theorem recommend_routines_length (exs : List Exercise) (sv : UserSurvey) :
    (recommend_routines exs sv).routines.length = max 1 sv.routineCount := by
  simp [recommend_routines]

theorem recommend_routines_get? (exs : List Exercise) (sv : UserSurvey) (i : Nat)
    (h : i < max 1 sv.routineCount) :
    (recommend_routines exs sv).routines.get? i =
      some (create_routine exs (i + 1) (rotateParts (sortedParts sv) i)) := by
  simp only [recommend_routines]
  rw [List.get?_eq_getElem?, List.getElem?_map, List.getElem?_range h]
  rfl

theorem recommend_routines_mem {exs : List Exercise} {sv : UserSurvey} {r : Routine}
    (h : r ∈ (recommend_routines exs sv).routines) :
    ∃ i, i < max 1 sv.routineCount ∧
      r = create_routine exs (i + 1) (rotateParts (sortedParts sv) i) := by
  simp only [recommend_routines, List.mem_map, List.mem_range] at h
  obtain ⟨i, hi, hr⟩ := h
  exact ⟨i, hi, hr.symm⟩

end Spec2Proof.RuleBasedRecommender

namespace Spec2Proof.ResponseBuilder

/-- A routine with non-empty steps, a total within the cap, and (when an id
filter is configured) only valid ids, always validates successfully. -/
theorem validate_single_routine_ok_of (v : List Int) (c : List Exercise) (r : Routine)
    (k : Nat) (hne : r.steps ≠ []) (hsum : sumLimit r.steps ≤ MAX_ROUTINE_TIME)
    (hids : v = [] ∨ ∀ s ∈ r.steps, s.exerciseId ∈ v) :
    ∃ fr, validate_single_routine v c r k = .ok fr := by
  have hvtt_ne : validate_total_time c (reorder_steps r.steps) ≠ [] := by
    refine validate_total_time_ne_nil c (reorder_steps r.steps) ?_ ?_
    · rw [Ne, reorder_steps, reorderFrom_eq_nil_iff]
      exact hne
    · rw [reorder_steps, reorderFrom_sumLimit]
      exact hsum
  unfold validate_single_routine
  rw [if_neg (by simpa [List.isEmpty_iff] using hne)]
  by_cases hv : v.isEmpty
  · rw [if_pos hv]
    simp only
    refine ⟨⟨k, r.reason, validate_total_time c (reorder_steps r.steps)⟩, ?_⟩
    rw [mkRoutine?_ok]
    exact ⟨hvtt_ne, rfl⟩
  · rw [if_neg hv]
    have hvne : v ≠ [] := by simpa [List.isEmpty_iff] using hv
    have hall : ∀ s ∈ r.steps, s.exerciseId ∈ v := by
      rcases hids with hnil | hall
      · exact absurd hnil hvne
      · exact hall
    have hfil : filter_valid_exercises v r.steps = .ok r.steps := by
      unfold filter_valid_exercises
      have hkeep : r.steps.filter (fun s => decide (s.exerciseId ∈ v)) = r.steps := by
        rw [List.filter_eq_self]
        intro s hs
        simpa using hall s hs
      simp only [hkeep]
      rw [if_neg (by simpa [List.isEmpty_iff] using hne)]
    rw [hfil]
    simp only
    refine ⟨⟨k, r.reason, validate_total_time c (reorder_steps r.steps)⟩, ?_⟩
    rw [mkRoutine?_ok]
    exact ⟨hvtt_ne, rfl⟩

theorem validateAndFixGo_ok_of_all {v : List Int} {c : List Exercise} {rs : List Routine}
    (hall : ∀ r ∈ rs, ∀ k, ∃ fr, validate_single_routine v c r k = .ok fr) :
    ∀ n, ∃ out, validateAndFixGo v c n rs = .ok out := by
  induction rs with
  | nil => exact fun n => ⟨[], rfl⟩
  | cons r rest ih =>
    intro n
    obtain ⟨fr, hfr⟩ := hall r (List.mem_cons_self r rest) (n + 1)
    obtain ⟨out, hout⟩ := ih (fun r' hr' k => hall r' (List.mem_cons_of_mem _ hr') k) (n + 1)
    refine ⟨fr :: out, ?_⟩
    unfold validateAndFixGo
    rw [hfr, hout]

/-- The rule-based recommender's output always passes `_validate_and_fix`,
provided the catalog is non-empty and (when an id filter is configured) the
catalog's ids are all valid — the wiring `ResponseBuilder.__init__` produces
when both default to the same exercise repository. -/
theorem validate_and_fix_fallback_ok (v : List Int) (exs : List Exercise)
    (sv : UserSurvey) (hcat : exs ≠ [])
    (hv : v = [] ∨ ∀ e ∈ exs, e.exerciseId ∈ v) :
    ∃ vr, validate_and_fix v exs
      (RuleBasedRecommender.recommend_routines exs sv).routines = .ok vr := by
  have hne : (RuleBasedRecommender.recommend_routines exs sv).routines ≠ [] := by
    intro hnil
    have hlen := RuleBasedRecommender.recommend_routines_length exs sv
    rw [hnil] at hlen
    simp at hlen
    omega
  have hall : ∀ r ∈ (RuleBasedRecommender.recommend_routines exs sv).routines, ∀ k,
      ∃ fr, validate_single_routine v exs r k = .ok fr := by
    intro r hr k
    obtain ⟨i, _hi, hrdef⟩ := RuleBasedRecommender.recommend_routines_mem hr
    obtain ⟨_ho, hsne, hsum, hprops⟩ := RuleBasedRecommender.create_routine_props exs (i + 1)
      (RuleBasedRecommender.rotateParts (RuleBasedRecommender.sortedParts sv) i) hcat
    refine validate_single_routine_ok_of v exs r k (by rw [hrdef]; exact hsne) ?_ ?_
    · rw [hrdef]
      refine le_trans hsum ?_
      simp [RuleBasedRecommender.TARGET_TIME, MAX_ROUTINE_TIME]
    · rcases hv with hnil | hvalid
      · exact Or.inl hnil
      · refine Or.inr ?_
        intro s hs
        rw [hrdef] at hs
        obtain ⟨_hpv, hmem⟩ := (hprops s hs)
        obtain ⟨e, he, heid⟩ := List.mem_map.mp hmem
        rw [← heid]
        exact hvalid e he
  have hgo := validateAndFixGo_ok_of_all hall 0
  obtain ⟨out, hout⟩ := hgo
  refine ⟨out, ?_⟩
  unfold validate_and_fix
  rw [if_neg (by simpa [List.isEmpty_iff] using hne)]
  exact hout

end Spec2Proof.ResponseBuilder

namespace Spec2Proof.RecommendService

/-- If the first `n` attempts starting at `a` all fail with retryable errors
of kinds `f`, the retry loop makes exactly `n` calls, returns no output, and
records the last attempt's error. -/
theorem attemptLoop_all_retryable {g : Nat → Except LLMErrorKind String}
    {p : String → Option LLMRoutineOutput} {f : Nat → LLMErrorKind} :
    ∀ (n a : Nat) (last : Option LLMErrorKind),
      (∀ i, i < n → attemptOnce g p (a + i) = .error (f (a + i)) ∧ (f (a + i)).retryable = true) →
      attemptLoop g p a n last =
        (none, if n = 0 then last else some (f (a + n - 1)), n) := by
  intro n
  induction n with
  | zero => intro a last _h; simp [attemptLoop]
  | succ m ih =>
    intro a last h
    have h0 := h 0 (Nat.succ_pos m)
    rw [Nat.add_zero] at h0
    have hrec : ∀ i, i < m →
        attemptOnce g p (a + 1 + i) = .error (f (a + 1 + i)) ∧ (f (a + 1 + i)).retryable = true := by
      intro i hi
      have := h (i + 1) (by omega)
      have harith : a + (i + 1) = a + 1 + i := by omega
      rw [harith] at this
      exact this
    rw [attemptLoop]
    simp only [h0.1, h0.2, if_true]
    rw [ih (a + 1) (some (f a)) hrec]
    cases m with
    | zero => simp
    | succ m' =>
      have harith1 : a + 1 + (m' + 1) - 1 = a + (m' + 1 + 1) - 1 := by omega
      simp [harith1]

/-- If the first `n` attempts starting at `a` all fail (any error kind), the
retry loop returns no output. -/
theorem attemptLoop_none_of_fail {g : Nat → Except LLMErrorKind String}
    {p : String → Option LLMRoutineOutput} :
    ∀ (n a : Nat) (last : Option LLMErrorKind),
      (∀ i, i < n → ∃ k, attemptOnce g p (a + i) = .error k) →
      (attemptLoop g p a n last).1 = none := by
  intro n
  induction n with
  | zero => intro a last _h; simp [attemptLoop]
  | succ m ih =>
    intro a last h
    obtain ⟨k, hk⟩ := h 0 (Nat.succ_pos m)
    rw [Nat.add_zero] at hk
    rw [attemptLoop]
    by_cases hret : k.retryable
    · have hrec : ∀ i, i < m → ∃ k', attemptOnce g p (a + 1 + i) = .error k' := by
        intro i hi
        have := h (i + 1) (by omega)
        have harith : a + (i + 1) = a + 1 + i := by omega
        rw [harith] at this
        exact this
      have hnone := ih (a + 1) (some k) hrec
      rcases hL : attemptLoop g p (a + 1) m (some k) with ⟨r, l, c⟩
      rw [hL] at hnone
      simp at hnone
      simp [hk, hret, hL, hnone]
    · simp [hk, hret]

/-- If the first `n` attempts starting at `a` all fail with retryable errors,
the retry loop makes exactly `n` calls and returns no output. -/
theorem attemptLoop_count_retryable {g : Nat → Except LLMErrorKind String}
    {p : String → Option LLMRoutineOutput} :
    ∀ (n a : Nat) (last : Option LLMErrorKind),
      (∀ i, i < n → ∃ k, attemptOnce g p (a + i) = .error k ∧ k.retryable = true) →
      (attemptLoop g p a n last).1 = none ∧ (attemptLoop g p a n last).2.2 = n := by
  intro n
  induction n with
  | zero => intro a last _h; simp [attemptLoop]
  | succ m ih =>
    intro a last h
    obtain ⟨k, hk, hret⟩ := h 0 (Nat.succ_pos m)
    rw [Nat.add_zero] at hk
    have hrec : ∀ i, i < m → ∃ k', attemptOnce g p (a + 1 + i) = .error k' ∧ k'.retryable = true := by
      intro i hi
      have := h (i + 1) (by omega)
      have harith : a + (i + 1) = a + 1 + i := by omega
      rw [harith] at this
      exact this
    have hIH := ih (a + 1) (some k) hrec
    rw [attemptLoop]
    rcases hL : attemptLoop g p (a + 1) m (some k) with ⟨r, l, c⟩
    rw [hL] at hIH
    simp at hIH
    simp [hk, hret, hL, hIH.1, hIH.2]

/-- The number of `generate` calls reported by the service is the loop's call
count, whatever the outcome and configuration. -/
theorem recommend_routines_svc_calls (g : Nat → Except LLMErrorKind String)
    (p : String → Option LLMRoutineOutput) (R : Nat) (fb : Bool)
    (exs : List Exercise) (sv : UserSurvey) :
    (recommend_routines_svc g p R fb exs sv).2 = (attemptLoop g p 0 (R + 1) none).2.2 := by
  unfold recommend_routines_svc
  rcases hL : attemptLoop g p 0 (R + 1) none with ⟨r, l, c⟩
  cases r with
  | some out => rfl
  | none =>
    by_cases hfb : fb
    · simp [hfb]
    · simp [hfb]

end Spec2Proof.RecommendService

namespace Spec2Proof

/-- Decidable equality of `Except` results, for evaluating the embedded
services on concrete inputs. -/
instance instDecEqExcept {ε α : Type} [DecidableEq ε] [DecidableEq α] :
    DecidableEq (Except ε α) := fun x y =>
  match x, y with
  | .error e1, .error e2 =>
    decidable_of_iff (e1 = e2)
      ⟨fun h => by rw [h], fun h => by injection h⟩
  | .error _, .ok _ => isFalse (fun h => Except.noConfusion h)
  | .ok _, .error _ => isFalse (fun h => Except.noConfusion h)
  | .ok a, .ok b =>
    decidable_of_iff (a = b)
      ⟨fun h => by rw [h], fun h => by injection h⟩

end Spec2Proof

namespace Spec2Proof.Fx

/-- Fixture: a DURATION catalog exercise with the given id and body part. -/
def exDur (i : Int) (bp : BodyPart) : Exercise :=
  ⟨i, .DURATION, "운동", "설명", "효과", bp, .EASY, "스트레칭"⟩

/-- Fixture: a DURATION routine step with the given id and limit time. -/
def stepDur (i : Int) (lim : Nat) : RoutineStep :=
  ⟨i, .DURATION, 1, lim, some 30, none⟩

/-- Fixture: a one-exercise catalog (id 9). -/
def cat1 : List Exercise := [exDur 9 .NECK]

/-- Fixture: a three-exercise catalog (ids 1, 2, 3). -/
def cat3 : List Exercise := [exDur 1 .NECK, exDur 2 .SHOULDER, exDur 3 .WRIST]

/-- Fixture: a survey requesting one routine with a neck-pain answer. -/
def svNeck : UserSurvey := ⟨1, [⟨"목 통증", 3⟩]⟩

/-- Fixture: a survey requesting four routines with two pain answers
(sorted pain list has length 2). -/
def sv4 : UserSurvey := ⟨4, [⟨"목 통증", 4⟩, ⟨"어깨 통증", 2⟩]⟩

/-- Fixture: an LLM output with one 20-second step of an id outside `cat1`. -/
def outUnder : LLMRoutineOutput := ⟨[⟨1, "이유", [stepDur 5 20]⟩]⟩

/-- Fixture: a routine of 100s + 150s steps (over the 210-second cap). -/
def outOver : Routine :=
  ⟨1, "이유", [stepDur 1 100, ⟨2, .DURATION, 2, 150, some 30, none⟩]⟩

/-- Fixture: an LLM output with a single 250-second step. -/
def outBig : LLMRoutineOutput := ⟨[⟨1, "이유", [stepDur 1 250]⟩]⟩

/-- Fixture: an already-normalized routine (one 150-second step). -/
def normedR : Routine := ⟨1, "이유", [⟨1, .DURATION, 1, 150, some 30, none⟩]⟩

/-- Fixture: an already-normalized routine list (one 150-second step). -/
def normed : List Routine := [normedR]

/-- Fixture: the LLM output wrapping `normed`. -/
def outOK : LLMRoutineOutput := ⟨normed⟩

/-- Fixture: what `_validate_and_fix` makes of `[outOver]` over `cat1`
(trimmed to the first step and renumbered). -/
def trimmed : List Routine := [⟨1, "이유", [⟨1, .DURATION, 1, 100, some 30, none⟩]⟩]

/-- Fixture: what a second `_validate_and_fix` pass makes of `trimmed` over
`cat1` (the 100-second routine is refilled from the catalog). -/
def refilled : List Routine :=
  [⟨1, "이유", [⟨1, .DURATION, 1, 100, some 30, none⟩, ⟨9, .DURATION, 2, 60, some 30, none⟩]⟩]

end Spec2Proof.Fx

namespace Spec2Proof

open Spec2Proof.ResponseBuilder
open Spec2Proof.RuleBasedRecommender (get_filler_steps recommend_routines create_routine
  rotateParts sortedParts)

/-- C1, counterexample to the claim as stated: on a one-routine output whose
step totals 20 seconds over a catalog that can supply only 60 seconds of
filler, `ResponseBuilder.build` succeeds and returns a routine totalling 80
seconds — outside `[150, 210]` — even though the filler generator returned a
non-empty step list for the deficit, so the claimed disjunction
"total in range, or the filler generator returned no steps" fails. -/
theorem claim_C1_counterexample :
    ((build [] Fx.cat1 Fx.outUnder ("t") none 0).toOption.bind
      (fun resp => resp.routines)).map (fun rs => rs.map (fun r => sumLimit r.steps)) =
      some [80] ∧
    get_filler_steps Fx.cat1 (MIN_ROUTINE_TIME - 20) [(5 : Int)] ≠ [] := by
  decide

/-- C1 (amended): every routine returned by `ResponseBuilder.build` has total
step time at most 210 seconds; and the time-enforcement pass leaves a routine
below 150 seconds only when either the input was over the cap and trimming
undershot the minimum, or the input was under the minimum and the available
filler steps could not cover the deficit (in particular when no filler was
available). -/
theorem claim_C1 :
    (∀ (v : List Int) (c : List Exercise) (output : LLMRoutineOutput) (tid : String)
      (sv : Option UserSurvey) (now : Nat) (resp : RecommendationResponseV1)
      (rs : List Routine) (r : Routine),
      build v c output tid sv now = .ok resp → resp.routines = some rs → r ∈ rs →
        sumLimit r.steps ≤ MAX_ROUTINE_TIME) ∧
    (∀ (c : List Exercise) (steps : List RoutineStep),
      sumLimit (validate_total_time c steps) ≤ MAX_ROUTINE_TIME ∧
      (MIN_ROUTINE_TIME ≤ sumLimit (validate_total_time c steps) ∨
        (MAX_ROUTINE_TIME < sumLimit steps ∧
          validate_total_time c steps = trim_steps_to_fit steps) ∨
        (sumLimit steps < MIN_ROUTINE_TIME ∧
          sumLimit (get_filler_steps c (MIN_ROUTINE_TIME - sumLimit steps)
            (steps.map (fun s => s.exerciseId))) < MIN_ROUTINE_TIME - sumLimit steps))) := by
  constructor
  · intro v c output tid sv now resp rs r hbuild hrout hmem
    obtain ⟨rsIn, vr, hva, hresp⟩ := build_ok_decomp hbuild
    rw [hresp] at hrout
    simp only [create_response] at hrout
    injection hrout with hvr
    rw [← hvr] at hmem
    exact (validate_and_fix_mem_props hva hmem).2.2
  · intro c steps
    exact ⟨validate_total_time_sum_le c steps, validate_total_time_cases c steps⟩

/-- C1, witness: a concrete successful `build` whose single returned routine
(150 seconds) satisfies the amended bound. -/
theorem claim_C1_witness :
    build [] [] Fx.outOK ("t") none 0 = .ok (create_response Fx.normed ("t") 0) ∧
    (create_response Fx.normed ("t") 0).routines = some Fx.normed ∧
    Fx.normedR ∈ Fx.normed ∧
    sumLimit Fx.normedR.steps ≤ MAX_ROUTINE_TIME := by
  refine ⟨by decide, by decide, by decide, ?_⟩
  exact claim_C1.1 [] [] Fx.outOK ("t") none 0 (create_response Fx.normed ("t") 0)
    Fx.normed Fx.normedR (by decide) (by decide) (by decide)

/-- C2, counterexample to the claim as stated: validating a routine of
100 + 150 seconds trims it (from the end) down to a single 100-second step,
which is below the 150-second minimum; re-running the validation on that
output appends a filler step from the catalog, so the second pass does not
return its input unchanged. -/
theorem claim_C2_counterexample :
    validate_and_fix [] Fx.cat1 [Fx.outOver] = .ok Fx.trimmed ∧
    validate_and_fix [] Fx.cat1 Fx.trimmed = .ok Fx.refilled ∧
    Fx.refilled ≠ Fx.trimmed := by
  decide

/-- C2 (amended): re-running `_validate_and_fix` on its own successful output
returns that output unchanged, provided every output step's id passes the
configured id filter (automatic when no filter is set) and every output
routine either reaches the 150-second minimum or has no filler left for its
deficit — the counterexample shows the proviso is needed when a trimmed
routine falls below the minimum while filler is still available. -/
theorem claim_C2 (v : List Int) (c : List Exercise) (rs out : List Routine)
    (h : validate_and_fix v c rs = .ok out)
    (hids : v = [] ∨ ∀ fr ∈ out, ∀ s ∈ fr.steps, s.exerciseId ∈ v)
    (htime : ∀ fr ∈ out, MIN_ROUTINE_TIME ≤ sumLimit fr.steps ∨
      get_filler_steps c (MIN_ROUTINE_TIME - sumLimit fr.steps)
        (fr.steps.map (fun s => s.exerciseId)) = []) :
    validate_and_fix v c out = .ok out :=
  validate_and_fix_idem h hids htime

/-- C2, witness: an already-normalized 150-second routine list is a fixed
point of the validation pass. -/
theorem claim_C2_witness :
    validate_and_fix [] [] Fx.normed = .ok Fx.normed :=
  claim_C2 [] [] Fx.normed Fx.normed (by decide) (Or.inl rfl) (by decide)

/-- C9: a routine whose first step alone exceeds 210 seconds is trimmed to an
empty step list, and the subsequent pydantic `Routine` construction fails
with a `ValidationError` — not a `RoutineValidationError` — so
`ResponseBuilder.build` propagates it even though a survey was supplied and
the rule-based fallback is never invoked. -/
theorem claim_C9 :
    trim_steps_to_fit [Fx.stepDur 1 250] = [] ∧
    build [] Fx.cat1 Fx.outBig ("t") (some Fx.svNeck) 0 =
      .error (.pydanticValidation ("루틴은 최소 1개 이상의 step을 포함해야 합니다.")) := by
  decide

/-- C10: with an empty configured valid-id set, `_validate_single_routine`
skips the id filter entirely (every step passes unchanged into the
renumbering and time passes), whereas actually filtering with the empty set
would have removed every step and raised; the second conjunct exhibits that
contrast. -/
theorem claim_C10 (c : List Exercise) (r : Routine) (k : Nat) (hne : r.steps ≠ []) :
    validate_single_routine [] c r k =
      mkRoutine? k r.reason (validate_total_time c (reorder_steps r.steps)) ∧
    filter_valid_exercises [] r.steps =
      .error (.routineValidation ("모든 스텝이 유효하지 않은 exerciseId로 제거되었습니다.")) := by
  constructor
  · unfold validate_single_routine
    rw [if_neg (by simpa [List.isEmpty_iff] using hne)]
    simp
  · unfold filter_valid_exercises
    simp

/-- C10, witness: the filter-skip behaviour at a concrete routine. -/
theorem claim_C10_witness :
    validate_single_routine [] Fx.cat1 Fx.outOver 1 =
      mkRoutine? 1 Fx.outOver.reason
        (validate_total_time Fx.cat1 (reorder_steps Fx.outOver.steps)) ∧
    filter_valid_exercises [] Fx.outOver.steps =
      .error (.routineValidation ("모든 스텝이 유효하지 않은 exerciseId로 제거되었습니다.")) :=
  claim_C10 Fx.cat1 Fx.outOver 1 (by decide)

end Spec2Proof

namespace Spec2Proof

open Spec2Proof.ResponseBuilder
open Spec2Proof.RuleBasedRecommender (get_filler_steps recommend_routines create_routine
  rotateParts sortedParts recommend_routines_length recommend_routines_mem
  recommend_routines_get? create_routine_props)
open Spec2Proof.RecommendService

/-- C3: with configured max-retries `R`, the orchestrator makes exactly
`R + 1` calls to `LLMClient.generate` when every attempt fails with a
retryable error (whatever the fallback configuration), and exactly 1 call
when the first `generate` raises `AuthenticationError`; additionally, a
JSON-parse/schema failure of a successfully returned text is itself a
retryable invalid-response failure of that attempt. -/
theorem claim_C3 (g : Nat → Except LLMErrorKind String)
    (p : String → Option LLMRoutineOutput) (R : Nat) (fb : Bool)
    (exs : List Exercise) (sv : UserSurvey) :
    ((∀ i, i < R + 1 → ∃ k, attemptOnce g p i = .error k ∧ k.retryable = true) →
      (recommend_routines_svc g p R fb exs sv).2 = R + 1) ∧
    (g 0 = .error .authentication →
      (recommend_routines_svc g p R fb exs sv).2 = 1) ∧
    (∀ i raw, g i = .ok raw → p raw = none →
      attemptOnce g p i = .error .invalidResponse ∧
        LLMErrorKind.invalidResponse.retryable = true) := by
  refine ⟨?_, ?_, ?_⟩
  · intro h
    rw [recommend_routines_svc_calls]
    exact (attemptLoop_count_retryable (R + 1) 0 none
      (fun i hi => by simpa using h i hi)).2
  · intro hauth
    rw [recommend_routines_svc_calls]
    have hA : attemptOnce g p 0 = .error .authentication := by
      unfold attemptOnce
      rw [hauth]
    rw [attemptLoop]
    simp [hA, LLMErrorKind.retryable]
  · intro i raw hg hp
    refine ⟨?_, rfl⟩
    unfold attemptOnce
    rw [hg]
    simp [hp]

/-- C3, witness: with a client that always times out and max-retries 2 the
service makes exactly 3 calls; with a client that fails authentication on the
first call it makes exactly 1 call. -/
theorem claim_C3_witness :
    (recommend_routines_svc (fun _ => .error .timeout) (fun _ => none) 2 true
      Fx.cat3 Fx.svNeck).2 = 3 ∧
    (recommend_routines_svc (fun _ => .error .authentication) (fun _ => none) 2 true
      Fx.cat3 Fx.svNeck).2 = 1 :=
  ⟨(claim_C3 (fun _ => .error .timeout) (fun _ => none) 2 true Fx.cat3 Fx.svNeck).1
      (fun _ _ => ⟨.timeout, rfl, rfl⟩),
   (claim_C3 (fun _ => .error .authentication) (fun _ => none) 2 true Fx.cat3 Fx.svNeck).2.1
      rfl⟩

/-- C4: over a non-empty catalog (the precondition under which the fallback of
last resort is guaranteed not to raise), the orchestrator with fallback
enabled always returns some output, and the routines of the rule-based output
it would return all pass every pydantic construction-time check (non-empty
steps, positive orders, valid mode/field coupling), so no raise is hidden in
the fallback path; on exhaustion it returns exactly the rule-based output.
With fallback disabled and every attempt failing with a retryable error, it
raises an `LLMInvalidResponseError` carrying the last attempt's underlying
error as its cause. -/
theorem claim_C4 (g : Nat → Except LLMErrorKind String)
    (p : String → Option LLMRoutineOutput) (R : Nat)
    (exs : List Exercise) (sv : UserSurvey) :
    (exs ≠ [] →
      (∃ out, (recommend_routines_svc g p R true exs sv).1 = .ok out) ∧
      ∀ r ∈ (recommend_routines exs sv).routines,
        r.steps ≠ [] ∧ 1 ≤ r.routineOrder ∧ ∀ s ∈ r.steps, s.pydValid = true) ∧
    (exs ≠ [] →
      (∀ i, i < R + 1 → ∃ k, attemptOnce g p i = .error k) →
      (recommend_routines_svc g p R true exs sv).1 = .ok (recommend_routines exs sv)) ∧
    (∀ f : Nat → LLMErrorKind,
      (∀ i, i < R + 1 → attemptOnce g p i = .error (f i) ∧ (f i).retryable = true) →
      (recommend_routines_svc g p R false exs sv).1 =
        .error (.invalidResponse, some (f R))) := by
  refine ⟨?_, ?_, ?_⟩
  · intro hcat
    constructor
    · unfold recommend_routines_svc
      rcases hL : attemptLoop g p 0 (R + 1) none with ⟨r, l, c⟩
      cases r with
      | some out => exact ⟨out, rfl⟩
      | none => exact ⟨recommend_routines exs sv, by simp⟩
    · intro r hr
      obtain ⟨i, _hi, hrdef⟩ := recommend_routines_mem hr
      obtain ⟨ho, hne, _hsum, hprops⟩ := create_routine_props exs (i + 1)
        (rotateParts (sortedParts sv) i) hcat
      refine ⟨by rw [hrdef]; exact hne, by rw [hrdef, ho]; omega, ?_⟩
      intro s hs
      rw [hrdef] at hs
      exact (hprops s hs).1
  · intro _hcat h
    have hn := attemptLoop_none_of_fail (R + 1) 0 none (fun i hi => by simpa using h i hi)
    unfold recommend_routines_svc
    rcases hL : attemptLoop g p 0 (R + 1) none with ⟨r, l, c⟩
    rw [hL] at hn
    simp at hn
    rw [hn]
    simp
  · intro f hf
    have hA := attemptLoop_all_retryable (R + 1) 0 none (fun i hi => by simpa using hf i hi)
    unfold recommend_routines_svc
    rw [hA]
    have harith : 0 + (R + 1) - 1 = R := by omega
    simp [harith]

/-- C4, witness: with an always-timing-out client, max-retries 1 and the
non-empty three-exercise catalog, the service returns the rule-based output
(whose routines all pass the construction-time checks) when fallback is
enabled, and raises an invalid-response error caused by the timeout when
fallback is disabled. -/
theorem claim_C4_witness :
    (∀ r ∈ (recommend_routines Fx.cat3 Fx.svNeck).routines,
      r.steps ≠ [] ∧ 1 ≤ r.routineOrder ∧ ∀ s ∈ r.steps, s.pydValid = true) ∧
    (recommend_routines_svc (fun _ => .error .timeout) (fun _ => none) 1 true
      Fx.cat3 Fx.svNeck).1 = .ok (recommend_routines Fx.cat3 Fx.svNeck) ∧
    (recommend_routines_svc (fun _ => .error .timeout) (fun _ => none) 1 false
      Fx.cat3 Fx.svNeck).1 = .error (.invalidResponse, some .timeout) :=
  ⟨((claim_C4 (fun _ => .error .timeout) (fun _ => none) 1 Fx.cat3 Fx.svNeck).1
      (by decide)).2,
   (claim_C4 (fun _ => .error .timeout) (fun _ => none) 1 Fx.cat3 Fx.svNeck).2.1
      (by decide) (fun _ _ => ⟨.timeout, rfl⟩),
   (claim_C4 (fun _ => .error .timeout) (fun _ => none) 1 Fx.cat3 Fx.svNeck).2.2
      (fun _ => .timeout) (fun _ _ => ⟨rfl, rfl⟩)⟩

/-- C5: for every survey and non-empty catalog, the rule-based recommender
returns exactly `max(1, routineCount)` routines, each with a non-empty,
pydantic-valid step list and a positive routine order — so no pydantic
construction check can fire and no exception is raised. -/
theorem claim_C5 (exs : List Exercise) (sv : UserSurvey) (hcat : exs ≠ []) :
    (recommend_routines exs sv).routines.length = max 1 sv.routineCount ∧
    ∀ r ∈ (recommend_routines exs sv).routines,
      r.steps ≠ [] ∧ 1 ≤ r.routineOrder ∧ ∀ s ∈ r.steps, s.pydValid = true := by
  refine ⟨recommend_routines_length exs sv, ?_⟩
  intro r hr
  obtain ⟨i, _hi, hrdef⟩ := recommend_routines_mem hr
  obtain ⟨ho, hne, _hsum, hprops⟩ := create_routine_props exs (i + 1)
    (rotateParts (sortedParts sv) i) hcat
  refine ⟨by rw [hrdef]; exact hne, by rw [hrdef, ho]; omega, ?_⟩
  intro s hs
  rw [hrdef] at hs
  exact (hprops s hs).1

/-- C5, witness: the guarantees at a concrete survey and three-exercise
catalog. -/
theorem claim_C5_witness :
    (recommend_routines Fx.cat3 Fx.svNeck).routines.length = max 1 Fx.svNeck.routineCount ∧
    ∀ r ∈ (recommend_routines Fx.cat3 Fx.svNeck).routines,
      r.steps ≠ [] ∧ 1 ≤ r.routineOrder ∧ ∀ s ∈ r.steps, s.pydValid = true :=
  claim_C5 Fx.cat3 Fx.svNeck (by decide)

/-- C6: when `_validate_and_fix` fails with a `RoutineValidationError` and a
survey was supplied, `build` re-invokes the rule-based recommender, validates
its output successfully (given a non-empty catalog whose ids pass the
configured filter — the production wiring, where both come from the same
exercise repository), and returns the resulting successful response; with no
survey supplied the same error propagates to the caller. -/
theorem claim_C6 (v : List Int) (exs : List Exercise) (output : LLMRoutineOutput)
    (tid : String) (sv : UserSurvey) (now : Nat) (msg : String)
    (hcat : exs ≠ [])
    (hv : v = [] ∨ ∀ e ∈ exs, e.exerciseId ∈ v)
    (hfail : validate_and_fix v exs output.routines = .error (.routineValidation msg)) :
    (∃ vr, validate_and_fix v exs (recommend_routines exs sv).routines = .ok vr ∧
      build v exs output tid (some sv) now = .ok (create_response vr tid now)) ∧
    build v exs output tid none now = .error (.routineValidation msg) := by
  obtain ⟨vr, hvr⟩ := validate_and_fix_fallback_ok v exs sv hcat hv
  refine ⟨⟨vr, hvr, ?_⟩, ?_⟩
  · unfold build
    rw [hfail]
    simp only
    rw [hvr]
  · unfold build
    rw [hfail]

/-- C6, witness: an empty LLM output over the three-exercise catalog triggers
the fallback path with a survey and propagates the validation error without
one. -/
theorem claim_C6_witness :
    (∃ vr, validate_and_fix [1, 2, 3] Fx.cat3
        (recommend_routines Fx.cat3 Fx.svNeck).routines = .ok vr ∧
      build [1, 2, 3] Fx.cat3 ⟨[]⟩ ("t") (some Fx.svNeck) 0 =
        .ok (create_response vr ("t") 0)) ∧
    build [1, 2, 3] Fx.cat3 ⟨[]⟩ ("t") none 0 =
      .error (.routineValidation ("추천된 루틴이 없습니다.")) :=
  claim_C6 [1, 2, 3] Fx.cat3 ⟨[]⟩ ("t") Fx.svNeck 0 ("추천된 루틴이 없습니다.")
    (by decide) (by decide) (by decide)

/-- C7, counterexample to the claim as stated: with two scored body parts and
four requested routines, routine index 3 uses `sorted_parts[3:] +
sorted_parts[:3]`, which is the *unrotated* list, not the
wrapped-around left rotation by 3 positions. -/
theorem claim_C7_counterexample :
    3 < max 1 Fx.sv4.routineCount ∧
    (recommend_routines Fx.cat3 Fx.sv4).routines.get? 3 =
      some (create_routine Fx.cat3 4 (rotateParts (sortedParts Fx.sv4) 3)) ∧
    rotateParts (sortedParts Fx.sv4) 3 ≠ (sortedParts Fx.sv4).rotate 3 := by
  decide

/-- C7 (amended): routine index `i` uses the slice rotation
`sorted_parts[i:] + sorted_parts[:i]`, which coincides with the left rotation
by `i` (wrapping around) whenever `i` is at most the priority list's length,
and degenerates to the unrotated list whenever `i` is at least that
length. -/
theorem claim_C7 (exs : List Exercise) (sv : UserSurvey) (i : Nat)
    (hi : i < max 1 sv.routineCount) :
    (recommend_routines exs sv).routines.get? i =
      some (create_routine exs (i + 1) (rotateParts (sortedParts sv) i)) ∧
    (i ≤ (sortedParts sv).length →
      rotateParts (sortedParts sv) i = (sortedParts sv).rotate i) ∧
    ((sortedParts sv).length ≤ i →
      rotateParts (sortedParts sv) i = sortedParts sv) := by
  refine ⟨recommend_routines_get? exs sv i hi, ?_, ?_⟩
  · intro hle
    rw [RuleBasedRecommender.rotateParts, List.rotate_eq_drop_append_take hle]
  · intro hge
    rw [RuleBasedRecommender.rotateParts, List.drop_eq_nil_of_le hge,
      List.take_of_length_le hge]
    simp

/-- C7, witness: the amended statement at routine index 1 of the concrete
two-part survey. -/
theorem claim_C7_witness :
    (recommend_routines Fx.cat3 Fx.sv4).routines.get? 1 =
      some (create_routine Fx.cat3 2 (rotateParts (sortedParts Fx.sv4) 1)) ∧
    (1 ≤ (sortedParts Fx.sv4).length →
      rotateParts (sortedParts Fx.sv4) 1 = (sortedParts Fx.sv4).rotate 1) ∧
    ((sortedParts Fx.sv4).length ≤ 1 →
      rotateParts (sortedParts Fx.sv4) 1 = sortedParts Fx.sv4) :=
  claim_C7 Fx.cat3 Fx.sv4 1 (by decide)

/-- C8: every successful `_validate_and_fix` output has at least one routine,
its routines carry `routineOrder = position + 1` (1..M contiguously), each
routine has at least one step with `stepOrder = position + 1` (1..N
contiguously), and the renumbering `_reorder_steps` is purely positional
(each output entry is the same-position input step with only its `stepOrder`
replaced, so relative order is preserved). -/
theorem claim_C8 (v : List Int) (c : List Exercise) (rs out : List Routine)
    (h : validate_and_fix v c rs = .ok out) :
    1 ≤ out.length ∧
    (∀ i fr, out.get? i = some fr → fr.routineOrder = i + 1) ∧
    (∀ fr ∈ out, 1 ≤ fr.steps.length ∧
      ∀ j s, fr.steps.get? j = some s → s.stepOrder = j + 1) ∧
    (∀ (l : List RoutineStep) (j : Nat),
      (reorder_steps l).get? j = (l.get? j).map (fun s => { s with stepOrder := j + 1 })) := by
  refine ⟨?_, ?_, ?_, reorder_steps_get?⟩
  · have hne := validate_and_fix_ok_ne_nil h
    cases hout : out with
    | nil => exact absurd hout hne
    | cons a rest => simp
  · intro i fr hget
    exact validate_and_fix_routineOrder h hget
  · intro fr hmem
    obtain ⟨hne, hfix, _⟩ := validate_and_fix_mem_props h hmem
    constructor
    · cases hsteps : fr.steps with
      | nil => exact absurd hsteps hne
      | cons a rest => simp
    · intro j s hget
      exact stepOrder_of_reorder_fix hfix hget

/-- C8, witness: the numbering guarantees at a concrete validated output. -/
theorem claim_C8_witness :
    1 ≤ Fx.trimmed.length ∧
    (∀ i fr, Fx.trimmed.get? i = some fr → fr.routineOrder = i + 1) ∧
    (∀ fr ∈ Fx.trimmed, 1 ≤ fr.steps.length ∧
      ∀ j s, fr.steps.get? j = some s → s.stepOrder = j + 1) ∧
    (∀ (l : List RoutineStep) (j : Nat),
      (reorder_steps l).get? j = (l.get? j).map (fun s => { s with stepOrder := j + 1 })) :=
  claim_C8 [] Fx.cat1 [Fx.outOver] Fx.trimmed (by decide)

end Spec2Proof
